import Mathlib

set_option linter.unusedSectionVars false

/-!
# Structural type compatibility (`structeq.c`)

A shallow embedding of the type-compatibility checker of `structeq.c`.

* A `struct type*` is modelled by a node identity drawn from a type `α` with
  decidable equality; the memory holding the nodes is a function
  `g : α → type α` giving the contents of each node.
* `const char*` tags and member names are `String`s, compared by content as
  `strcmp` does.
* The member array of a struct is a `List`; the field `N` is its length
  (the C field is an `int` that `MAKE_STRUCT` sets to the array size).
* The assumption trail `struct pair` is a list of pairs, most recent first;
  `link` is the tail of the list.
* The C functions recurse without bound, so `is_compatible_r` takes a fuel
  argument counting nested calls of `is_compatible_r`; the result `none`
  says that the fuel ran out, `some r` that the call returned `r`.
-/

namespace StructEq

/-- The C `struct struct_member`: a member name and a reference to its type. -/
structure struct_member (α : Type) where
  name : String
  type : α
deriving DecidableEq

/-- The C `struct struct_info`: the tag and the member array of a struct. -/
structure struct_info (α : Type) where
  tag : String
  members : List (struct_member α)
deriving DecidableEq

/-- The member count `N` of a struct. -/
def struct_info.N {α : Type} (s : struct_info α) : Nat := s.members.length

/-- The C `struct type`: the kind of a node together with its payload. -/
inductive type (α : Type) where
  | INT : type α
  | POINTER (ptr_type : α) : type α
  | STRUCT (str_info : struct_info α) : type α
deriving DecidableEq

/-- The C enumeration of `struct type`: the kind of a node. -/
inductive kind where
  | INT
  | POINTER
  | STRUCT
deriving DecidableEq

/-- The field `kind` of a node. -/
def type.kind {α : Type} : type α → kind
  | .INT => .INT
  | .POINTER _ => .POINTER
  | .STRUCT _ => .STRUCT

/-- The C `struct pair`: one assumed-equivalent pair of struct nodes. -/
structure pair (α : Type) where
  a : α
  b : α
deriving DecidableEq

section Engine

variable {α : Type} [DecidableEq α]

/-- The scan of the trail in `is_compat_struct` (lines 72-75): is the pair
`(a, b)` on the trail, in either orientation? -/
def seen (a b : α) : List (pair α) → Bool
  | [] => false
  | p :: link =>
    if (a = p.a ∧ b = p.b) ∨ (a = p.b ∧ b = p.a) then true else seen a b link

/-- The member loop of `is_compat_struct` (lines 81-88), run over the two
member arrays in lock step; `cmp` is the recursive comparison with the
extended trail. -/
def members_loop (cmp : α → α → Option Bool) :
    List (struct_member α × struct_member α) → Option Bool
  | [] => some true
  | m :: rest =>
    if m.1.name ≠ m.2.name then some false
    else
      match cmp m.1.type m.2.type with
      | none => none
      | some false => some false
      | some true => members_loop cmp rest

/-- The C `is_compat_struct` (lines 66-89). The struct nodes are given by
their identities `a`, `b` and their contents `sa`, `sb`; `self` is
`is_compatible_r`. -/
def is_compat_struct (self : α → α → List (pair α) → Option Bool)
    (a : α) (sa : struct_info α) (b : α) (sb : struct_info α)
    (v : List (pair α)) : Option Bool :=
  let v2 : List (pair α) := ⟨a, b⟩ :: v
  if seen a b v then some true
  else if sa.N ≠ sb.N ∨ sa.tag ≠ sb.tag then some false
  else members_loop (fun x y => self x y v2) (sa.members.zip sb.members)

/-- The C `is_compatible_r` (lines 34-52) over the memory `g`. The last
branch of the `match` is not reached: the two kinds are equal there. -/
def is_compatible_r (g : α → type α) :
    Nat → α → α → List (pair α) → Option Bool
  | 0 => fun _ _ _ => none
  | fuel + 1 => fun a b v =>
    if a = b then some true
    else if (g a).kind ≠ (g b).kind then some false
    else
      match g a, g b with
      | .INT, _ => some true
      | .POINTER pa, .POINTER pb => is_compatible_r g fuel pa pb v
      | .STRUCT sa, .STRUCT sb =>
        is_compat_struct (is_compatible_r g fuel) a sa b sb v
      | _, _ => some false

/-- The C `is_compatible` (lines 54-57): the comparison with an empty trail. -/
def is_compatible (g : α → type α) (fuel : Nat) (a b : α) : Option Bool :=
  is_compatible_r g fuel a b []

end Engine

/-! ## The type graph built by `main` -/

/-- The nodes that `main` builds. A pointer node made by `MAKE_POINTER` is
named after the member it is stored in: `str1_b` is the node assigned to
member `b` of `str1`. -/
inductive Node where
  | int_type
  | str1 | str2 | str3 | str4 | str5 | str6
  | str1_b | str2_b | str2_c | str3_b | str4_b | str5_b | str5_c | str6_b
  | str1b | str2b | str3b | str4b | str5b | str6b
  | str1b_b | str2b_b | str2b_c | str3b_b | str4b_b | str5b_b | str5b_c | str6b_b
  | str1c | str2c
  | str1c_b | str1c_c | str2c_b | str2c_c
  | str1d
  | str1d_b | str1d_c
deriving DecidableEq, Fintype

open Node in
/-- The memory at the end of `main` (lines 120-204). -/
def main_graph : Node → type Node
  | int_type => .INT
  | str1 => .STRUCT ⟨"tag1", [⟨"a", int_type⟩, ⟨"b", str1_b⟩]⟩
  | str2 => .STRUCT ⟨"tag2", [⟨"a", int_type⟩, ⟨"b", str2_b⟩, ⟨"c", str2_c⟩]⟩
  | str3 => .STRUCT ⟨"tag3", [⟨"a", int_type⟩, ⟨"b", str3_b⟩]⟩
  | str4 => .STRUCT ⟨"tag4", [⟨"a", int_type⟩, ⟨"b", str4_b⟩]⟩
  | str5 => .STRUCT ⟨"tag5", [⟨"a", int_type⟩, ⟨"b", str5_b⟩, ⟨"c", str5_c⟩]⟩
  | str6 => .STRUCT ⟨"tag6", [⟨"a", int_type⟩, ⟨"b", str6_b⟩]⟩
  | str1_b => .POINTER str2
  | str2_b => .POINTER str6
  | str2_c => .POINTER str3
  | str3_b => .POINTER str1
  | str4_b => .POINTER str5
  | str5_b => .POINTER str3
  | str5_c => .POINTER str6
  | str6_b => .POINTER str4
  | str1b => .STRUCT ⟨"tag1", [⟨"a", int_type⟩, ⟨"b", str1b_b⟩]⟩
  | str2b => .STRUCT ⟨"tag2", [⟨"a", int_type⟩, ⟨"b", str2b_b⟩, ⟨"c", str2b_c⟩]⟩
  | str3b => .STRUCT ⟨"tag3", [⟨"a", int_type⟩, ⟨"b", str3b_b⟩]⟩
  | str4b => .STRUCT ⟨"tag4", [⟨"a", int_type⟩, ⟨"b", str4b_b⟩]⟩
  | str5b => .STRUCT ⟨"tag5", [⟨"a", int_type⟩, ⟨"b", str5b_b⟩, ⟨"c", str5b_c⟩]⟩
  | str6b => .STRUCT ⟨"tag6", [⟨"a", int_type⟩, ⟨"b", str6b_b⟩]⟩
  | str1b_b => .POINTER str2b
  | str2b_b => .POINTER str6b
  | str2b_c => .POINTER str3b
  | str3b_b => .POINTER str1b
  | str4b_b => .POINTER str5b
  | str5b_b => .POINTER str3b
  | str5b_c => .POINTER str6b
  | str6b_b => .POINTER str4b
  | str1c => .STRUCT ⟨"tag", [⟨"a", int_type⟩, ⟨"b", str1c_b⟩, ⟨"c", str1c_c⟩]⟩
  | str2c => .STRUCT ⟨"tag", [⟨"a", int_type⟩, ⟨"b", str2c_b⟩, ⟨"c", str2c_c⟩]⟩
  | str1c_b => .POINTER str1c
  | str1c_c => .POINTER str2c
  | str2c_b => .POINTER str2c
  | str2c_c => .POINTER str1c
  | str1d => .STRUCT ⟨"tag", [⟨"a", int_type⟩, ⟨"b", str1d_b⟩, ⟨"c", str1d_c⟩]⟩
  | str1d_b => .POINTER str1d
  | str1d_c => .POINTER str1d

/-! ## Notions used to state the properties -/

section Notions

variable {α : Type}

/-- `PtrEdge g x y`: the node `x` is a pointer and `y` is its pointee. -/
def PtrEdge (g : α → type α) (x y : α) : Prop := g x = type.POINTER y

/-- Every reference cycle of `g` passes through a struct node. A node with
an outgoing reference is a pointer or a struct, so a cycle avoiding every
struct is a cycle of pointer nodes: there is none. -/
def StructOnCycles (g : α → type α) : Prop :=
  ∀ x, ¬ Relation.TransGen (PtrEdge g) x x

/-- The closure condition of structural equivalence at one pair `(x, y)` of a
relation `R`: same kind; if both are pointers, pointees related by `R`; if both
are structs, equal tags, equal member counts and, at every index, equal member
names and member types related by `R`. -/
def StructStep (g : α → type α) (R : α → α → Prop) (x y : α) : Prop :=
  (g x).kind = (g y).kind ∧
  (∀ p q, g x = type.POINTER p → g y = type.POINTER q → R p q) ∧
  (∀ s t, g x = type.STRUCT s → g y = type.STRUCT t →
    s.tag = t.tag ∧ s.N = t.N ∧
    ∀ (i : Nat) (hs : i < s.members.length) (ht : i < t.members.length),
      (s.members.get ⟨i, hs⟩).name = (t.members.get ⟨i, ht⟩).name ∧
      R (s.members.get ⟨i, hs⟩).type (t.members.get ⟨i, ht⟩).type)

/-- Structural equivalence of two nodes: some relation containing the pair
satisfies the closure condition at each of its pairs. -/
def StructEquiv (g : α → type α) (a b : α) : Prop :=
  ∃ R : α → α → Prop, R a b ∧ ∀ x y, R x y → StructStep g R x y

/-- One step of the lock-step descent from a pair of nodes: from two pointers
to their pointees, from two structs to their members at one index. -/
inductive Descent (g : α → type α) : α × α → α × α → Prop where
  | pointee {x y p q : α} :
      g x = type.POINTER p → g y = type.POINTER q → Descent g (x, y) (p, q)
  | member {x y : α} {s t : struct_info α} {m : struct_member α × struct_member α} :
      g x = type.STRUCT s → g y = type.STRUCT t → m ∈ s.members.zip t.members →
      Descent g (x, y) (m.1.type, m.2.type)

/-- A concrete mismatch at a pair of nodes: different kinds, or two structs
with different tags, different member counts or different member names at
some index. -/
def Mismatch (g : α → type α) (x y : α) : Prop :=
  (g x).kind ≠ (g y).kind ∨
  ∃ s t, g x = type.STRUCT s ∧ g y = type.STRUCT t ∧
    (s.tag ≠ t.tag ∨ s.N ≠ t.N ∨ ∃ m ∈ s.members.zip t.members, m.1.name ≠ m.2.name)

end Notions

section Maps

variable {α : Type}

/-- A reference of the graph: from a pointer to its pointee, from a struct to
the type of one of its members. -/
def RefEdge (g : α → type α) (x y : α) : Prop :=
  g x = type.POINTER y ∨ ∃ s, g x = type.STRUCT s ∧ ∃ m ∈ s.members, m.type = y

/-- The contents of a node with every reference sent through `φ`. -/
def type.map (φ : α → α) : type α → type α
  | .INT => .INT
  | .POINTER p => .POINTER (φ p)
  | .STRUCT s => .STRUCT ⟨s.tag, s.members.map (fun m => ⟨m.name, φ m.type⟩)⟩

/-- The contents of a node with the tag of a struct forgotten. -/
def type.untag : type α → type α
  | .INT => .INT
  | .POINTER p => .POINTER p
  | .STRUCT s => .STRUCT ⟨"", s.members⟩

/-- The map `φ` sends what is reachable from `n` to a clone of it: the node
`φ x` has the kind, tag, member names and member order of `x`, and its
references are the images of the references of `x`. -/
def CloneFrom (g : α → type α) (φ : α → α) (n : α) : Prop :=
  ∀ x, Relation.ReflTransGen (RefEdge g) n x → g (φ x) = (g x).map φ

/-- The map `φ` sends what is reachable from `n` to a copy of the same shape,
member names, member order and reference topology, whatever its tags. -/
def ShapeFrom (g : α → type α) (φ : α → α) (n : α) : Prop :=
  ∀ x, Relation.ReflTransGen (RefEdge g) n x →
    (g (φ x)).untag = ((g x).map φ).untag

end Maps

open Node in
/-- The map from the nodes `str1`..`str6` of `main` and their pointer nodes to
the second cluster `str1b`..`str6b`; every other node is kept. -/
def main_clone : Node → Node
  | str1 => str1b | str2 => str2b | str3 => str3b
  | str4 => str4b | str5 => str5b | str6 => str6b
  | str1_b => str1b_b | str2_b => str2b_b | str2_c => str2b_c | str3_b => str3b_b
  | str4_b => str4b_b | str5_b => str5b_b | str5_c => str5b_c | str6_b => str6b_b
  | x => x

open Node in
/-- The map that folds `str1c` and `str2c` of `main` onto `str1d`; every other
node is kept. -/
def main_fold : Node → Node
  | str1c => str1d | str2c => str1d
  | str1c_b => str1d_b | str2c_b => str1d_b
  | str1c_c => str1d_c | str2c_c => str1d_c
  | x => x

open Node in
/-- The map that exchanges the two halves `str1`, `str2`, `str3` and `str4`,
`str5`, `str6` of the first cluster of `main`; every other node is kept. -/
def main_halves : Node → Node
  | str1 => str4 | str2 => str5 | str3 => str6
  | str4 => str1 | str5 => str2 | str6 => str3
  | str1_b => str4_b | str2_b => str5_b | str2_c => str5_c | str3_b => str6_b
  | str4_b => str1_b | str5_b => str2_b | str5_c => str2_c | str6_b => str3_b
  | x => x

/-- A rank on the nodes of `main`: 1 on the pointer nodes, 0 on the others. -/
def main_rank (x : Node) : Nat :=
  match main_graph x with
  | .POINTER _ => 1
  | _ => 0

/-! ## Further graphs -/

/-- Two pointer nodes. -/
inductive PtrNode where
  | p
  | q
deriving DecidableEq, Fintype

/-- Two pointer nodes that point at each other:
`p = MAKE_POINTER(&q)` and `q = MAKE_POINTER(&p)`. -/
def ptr_cycle : PtrNode → type PtrNode
  | .p => .POINTER .q
  | .q => .POINTER .p

/-- The pairs of nodes that are not on the trail `v`, in either orientation. -/
def unseen {α : Type} [DecidableEq α] [Fintype α] (v : List (pair α)) :
    Finset (α × α) :=
  Finset.univ.filter (fun x => seen x.1 x.2 v = false)

/-- A relation is consistent with the trail `v` when each of its pairs is a
pair of identical nodes, is on the trail, or satisfies the closure condition
of structural equivalence. -/
def Consistent {α : Type} [DecidableEq α] (g : α → type α) (v : List (pair α))
    (R : α → α → Prop) : Prop :=
  ∀ x y, R x y → x = y ∨ seen x y v = true ∨ StructStep g R x y

/-- Equivalence up to the trail `v`: the pair lies in some relation that is
consistent with `v`. -/
def UpTo {α : Type} [DecidableEq α] (g : α → type α) (v : List (pair α))
    (x y : α) : Prop :=
  ∃ R : α → α → Prop, Consistent g v R ∧ R x y

/-! ## Notions for the properties of the trail and of the test clusters -/

/-- The member list `l` with the member `m` inserted at position `k`; at the
end when `k` is past the end. -/
def insert_member {α : Type} (k : Nat) (m : struct_member α)
    (l : List (struct_member α)) : List (struct_member α) :=
  l.take k ++ m :: l.drop k

/-- The memory of `main` in which the struct node `s` has been given the
additional member `m` at position `k`. -/
def main_extra (s : Node) (k : Nat) (m : struct_member Node) : Node → type Node :=
  fun x =>
    if x = s then
      match main_graph x with
      | .STRUCT si => .STRUCT ⟨si.tag, insert_member k m si.members⟩
      | t => t
    else main_graph x

/-- The struct nodes of the second cluster of `main`. -/
def clone_structs : List Node :=
  [Node.str1b, Node.str2b, Node.str3b, Node.str4b, Node.str5b, Node.str6b]

/-- Two structs and two pointer nodes. -/
inductive NameNode where
  | a
  | b
  | p
  | q
deriving DecidableEq, Fintype

/-- Two structs of the same tag and member count whose second member names
differ, and whose first members are two pointers that point at each other. -/
def name_cycle : NameNode → type NameNode
  | .a => .STRUCT ⟨"t", [⟨"x", .p⟩, ⟨"y", .p⟩]⟩
  | .b => .STRUCT ⟨"t", [⟨"x", .q⟩, ⟨"z", .q⟩]⟩
  | .p => .POINTER .q
  | .q => .POINTER .p

/-- An `int` node and two structs. -/
inductive SwapNode where
  | i
  | a
  | b
deriving DecidableEq, Fintype

/-- Two structs of the same tag with the same two member names in a different
order. -/
def swap_graph : SwapNode → type SwapNode
  | .i => .INT
  | .a => .STRUCT ⟨"t", [⟨"x", .i⟩, ⟨"y", .i⟩]⟩
  | .b => .STRUCT ⟨"t", [⟨"y", .i⟩, ⟨"x", .i⟩]⟩

section Trail

variable {α : Type} [DecidableEq α]

/-- The body of `is_compatible_r` (lines 36-51) with its recursive calls made
through `self`, as `is_compat_struct` makes them: `is_compatible_r` with fuel
`fuel + 1` is this body run with `is_compatible_r` with fuel `fuel` for `self`
(`is_compatible_r_unfold`). -/
def is_compatible_r_step (g : α → type α)
    (self : α → α → List (pair α) → Option Bool) (a b : α) (v : List (pair α)) :
    Option Bool :=
  if a = b then some true
  else if (g a).kind ≠ (g b).kind then some false
  else
    match g a, g b with
    | .INT, _ => some true
    | .POINTER pa, .POINTER pb => self pa pb v
    | .STRUCT sa, .STRUCT sb => is_compat_struct self a sa b sb v
    | _, _ => some false

/-- The computation `F`, run with `self` for its recursive calls, consults the
call on `x`, `y` with the trail `w`: two functions `self` that differ at most
on this call lead it to different outcomes. A call that does not return makes
its caller not return, so every call a computation makes is consulted. -/
def Consults (F : (α → α → List (pair α) → Option Bool) → Option Bool)
    (x y : α) (w : List (pair α)) : Prop :=
  ∃ self self2 : α → α → List (pair α) → Option Bool,
    (∀ x2 y2 w2, ¬ (x2 = x ∧ y2 = y ∧ w2 = w) → self x2 y2 w2 = self2 x2 y2 w2) ∧
    F self ≠ F self2

/-- The calls of the engine, read off `is_compatible_r_step` and with it off
`is_compat_struct` and `members_loop`: the call `c`, given by its two nodes and
its trail, makes the call `d` when its body consults `d`. -/
def EngineCalls (g : α → type α) (c d : α × α × List (pair α)) : Prop :=
  Consults (fun self => is_compatible_r_step g self c.1 c.2.1 c.2.2) d.1 d.2.1 d.2.2

/-- The calls `is_compatible_r(a, b, v)` makes in a run, written out: on two
distinct pointers the call on the pointees with the same trail; on two distinct
structs that are not on the trail and pass the test of tag and member count,
the call on the members at an index with the extended trail, made when the
names at that index are equal and, at every index before it, the names are
equal and the call returned true. Each of them is a call of the engine
(`calls_engineCalls`). -/
inductive Calls (g : α → type α) :
    α × α × List (pair α) → α × α × List (pair α) → Prop where
  | pointee {a b pa pb : α} {v : List (pair α)} :
      a ≠ b → g a = type.POINTER pa → g b = type.POINTER pb →
      Calls g (a, b, v) (pa, pb, v)
  | member {a b : α} {sa sb : struct_info α} {v : List (pair α)}
      {before after : List (struct_member α × struct_member α)}
      {m : struct_member α × struct_member α} :
      a ≠ b → g a = type.STRUCT sa → g b = type.STRUCT sb →
      seen a b v = false → sa.N = sb.N → sa.tag = sb.tag →
      sa.members.zip sb.members = before ++ m :: after →
      (∀ m2 ∈ before, m2.1.name = m2.2.name ∧
        ∃ f, is_compatible_r g f m2.1.type m2.2.type (⟨a, b⟩ :: v) = some true) →
      m.1.name = m.2.name →
      Calls g (a, b, v) (m.1.type, m.2.type, ⟨a, b⟩ :: v)

/-- Two entries of a trail hold the same pair of nodes, in either orientation. -/
def SamePair (x y : pair α) : Prop :=
  (x.a = y.a ∧ x.b = y.b) ∨ (x.a = y.b ∧ x.b = y.a)

/-- The invariant of the trail: every entry is a pair of two distinct struct
nodes, and no two entries hold the same pair in either orientation. -/
def TrailOK (g : α → type α) (v : List (pair α)) : Prop :=
  (∀ p ∈ v, p.a ≠ p.b ∧ (g p.a).kind = kind.STRUCT ∧ (g p.b).kind = kind.STRUCT) ∧
  v.Pairwise (fun x y => ¬ SamePair x y)

/-- The struct nodes of a finite graph. -/
def struct_nodes [Fintype α] (g : α → type α) : Finset α :=
  Finset.univ.filter (fun x => (g x).kind = kind.STRUCT)

end Trail

/-! ## Basic facts about the engine -/

section Basic

variable {α : Type} [DecidableEq α]

theorem seen_cons (a b : α) (p : pair α) (v : List (pair α)) :
    seen a b (p :: v) =
      (decide ((a = p.a ∧ b = p.b) ∨ (a = p.b ∧ b = p.a)) || seen a b v) := by
  by_cases h : (a = p.a ∧ b = p.b) ∨ (a = p.b ∧ b = p.a) <;> simp [seen, h]

theorem seen_iff (a b : α) (v : List (pair α)) :
    seen a b v = true ↔ ∃ p ∈ v, (a = p.a ∧ b = p.b) ∨ (a = p.b ∧ b = p.a) := by
  induction v with
  | nil => simp [seen]
  | cons p v ih => simp [seen_cons, ih]

theorem seen_comm (a b : α) (v : List (pair α)) : seen a b v = seen b a v := by
  induction v with
  | nil => rfl
  | cons p v ih =>
    rw [seen_cons, seen_cons, ih]
    congr 1
    simp only [decide_eq_decide]
    tauto

theorem is_compatible_r_zero (g : α → type α) (a b : α) (v : List (pair α)) :
    is_compatible_r g 0 a b v = none := rfl

theorem is_compatible_r_succ (g : α → type α) (fuel : Nat) (a b : α)
    (v : List (pair α)) :
    is_compatible_r g (fuel + 1) a b v =
      if a = b then some true
      else if (g a).kind ≠ (g b).kind then some false
      else
        match g a, g b with
        | .INT, _ => some true
        | .POINTER pa, .POINTER pb => is_compatible_r g fuel pa pb v
        | .STRUCT sa, .STRUCT sb =>
          is_compat_struct (is_compatible_r g fuel) a sa b sb v
        | _, _ => some false := rfl

theorem is_compatible_r_same (g : α → type α) (fuel : Nat) (a : α)
    (v : List (pair α)) : is_compatible_r g (fuel + 1) a a v = some true := by
  simp [is_compatible_r_succ]

theorem is_compatible_r_kind (g : α → type α) (fuel : Nat) {a b : α}
    (v : List (pair α)) (hab : a ≠ b) (hk : (g a).kind ≠ (g b).kind) :
    is_compatible_r g (fuel + 1) a b v = some false := by
  simp [is_compatible_r_succ, hab, hk]

theorem is_compatible_r_int (g : α → type α) (fuel : Nat) {a b : α}
    (v : List (pair α)) (hab : a ≠ b) (ha : g a = type.INT) (hb : g b = type.INT) :
    is_compatible_r g (fuel + 1) a b v = some true := by
  simp [is_compatible_r_succ, hab, ha, hb]

theorem is_compatible_r_pointer (g : α → type α) (fuel : Nat) {a b pa pb : α}
    (v : List (pair α)) (hab : a ≠ b) (ha : g a = type.POINTER pa)
    (hb : g b = type.POINTER pb) :
    is_compatible_r g (fuel + 1) a b v = is_compatible_r g fuel pa pb v := by
  simp [is_compatible_r_succ, hab, ha, hb, type.kind]

theorem is_compatible_r_struct (g : α → type α) (fuel : Nat) {a b : α}
    {sa sb : struct_info α} (v : List (pair α)) (hab : a ≠ b)
    (ha : g a = type.STRUCT sa) (hb : g b = type.STRUCT sb) :
    is_compatible_r g (fuel + 1) a b v =
      is_compat_struct (is_compatible_r g fuel) a sa b sb v := by
  simp [is_compatible_r_succ, hab, ha, hb, type.kind]

theorem is_compat_struct_seen (self : α → α → List (pair α) → Option Bool)
    (a : α) (sa : struct_info α) (b : α) (sb : struct_info α) (v : List (pair α))
    (hs : seen a b v = true) : is_compat_struct self a sa b sb v = some true := by
  simp [is_compat_struct, hs]

theorem is_compat_struct_precheck (self : α → α → List (pair α) → Option Bool)
    (a : α) (sa : struct_info α) (b : α) (sb : struct_info α) (v : List (pair α))
    (hs : ¬ seen a b v = true) (hp : sa.N ≠ sb.N ∨ sa.tag ≠ sb.tag) :
    is_compat_struct self a sa b sb v = some false := by
  simp [is_compat_struct, hs, hp]

theorem is_compat_struct_loop (self : α → α → List (pair α) → Option Bool)
    (a : α) (sa : struct_info α) (b : α) (sb : struct_info α) (v : List (pair α))
    (hs : ¬ seen a b v = true) (hp : ¬ (sa.N ≠ sb.N ∨ sa.tag ≠ sb.tag)) :
    is_compat_struct self a sa b sb v =
      members_loop (fun x y => self x y (⟨a, b⟩ :: v)) (sa.members.zip sb.members) := by
  simp only [is_compat_struct, hs, hp, if_false, Bool.false_eq_true]

/-- The ways a call with distinct nodes can go, by the contents of the nodes. -/
theorem node_cases (g : α → type α) (a b : α) :
    (g a).kind ≠ (g b).kind ∨ (g a = type.INT ∧ g b = type.INT) ∨
    (∃ pa pb, g a = type.POINTER pa ∧ g b = type.POINTER pb) ∨
    (∃ sa sb, g a = type.STRUCT sa ∧ g b = type.STRUCT sb) := by
  cases ha : g a <;> cases hb : g b <;> simp [type.kind]

theorem members_loop_nil (cmp : α → α → Option Bool) :
    members_loop cmp [] = some true := rfl

theorem members_loop_cons (cmp : α → α → Option Bool)
    (m : struct_member α × struct_member α)
    (rest : List (struct_member α × struct_member α)) :
    members_loop cmp (m :: rest) =
      if m.1.name ≠ m.2.name then some false
      else
        match cmp m.1.type m.2.type with
        | none => none
        | some false => some false
        | some true => members_loop cmp rest := rfl

theorem members_loop_eq_true (cmp : α → α → Option Bool)
    (l : List (struct_member α × struct_member α)) :
    members_loop cmp l = some true ↔
      ∀ m ∈ l, m.1.name = m.2.name ∧ cmp m.1.type m.2.type = some true := by
  induction l with
  | nil => simp [members_loop_nil]
  | cons m rest ih =>
    rw [members_loop_cons]
    by_cases hn : m.1.name = m.2.name
    · rcases hc : cmp m.1.type m.2.type with _ | r
      · simp [hn, hc]
      · cases r <;> simp [hn, hc, ih]
    · simp [hn]

theorem members_loop_eq_false (cmp : α → α → Option Bool)
    (l : List (struct_member α × struct_member α))
    (h : members_loop cmp l = some false) :
    ∃ m ∈ l, m.1.name ≠ m.2.name ∨ cmp m.1.type m.2.type = some false := by
  induction l with
  | nil => simp [members_loop_nil] at h
  | cons m rest ih =>
    rw [members_loop_cons] at h
    by_cases hn : m.1.name = m.2.name
    · rcases hc : cmp m.1.type m.2.type with _ | r
      · simp [hn, hc] at h
      · cases r
        · exact ⟨m, by simp, Or.inr hc⟩
        · simp only [hn, hc, ne_eq, not_true_eq_false, if_false] at h
          obtain ⟨m2, hm2, h2⟩ := ih h
          exact ⟨m2, by simp [hm2], h2⟩
    · exact ⟨m, by simp, Or.inl hn⟩

theorem members_loop_mono (c1 c2 : α → α → Option Bool)
    (hc : ∀ x y r, c1 x y = some r → c2 x y = some r)
    (l : List (struct_member α × struct_member α)) (r : Bool)
    (h : members_loop c1 l = some r) : members_loop c2 l = some r := by
  induction l with
  | nil => simpa [members_loop_nil] using h
  | cons m rest ih =>
    rw [members_loop_cons] at h ⊢
    by_cases hn : m.1.name = m.2.name
    · rcases h1 : c1 m.1.type m.2.type with _ | r1
      · simp [hn, h1] at h
      · rw [hc _ _ _ h1]
        cases r1
        · simpa [hn, h1] using h
        · simp only [hn, h1, ne_eq, not_true_eq_false, if_false] at h ⊢
          exact ih h
    · simpa [hn] using h

theorem members_loop_returns (cmp : α → α → Option Bool)
    (l : List (struct_member α × struct_member α))
    (h : ∀ m ∈ l, ∃ r, cmp m.1.type m.2.type = some r) :
    ∃ r, members_loop cmp l = some r := by
  induction l with
  | nil => exact ⟨true, rfl⟩
  | cons m rest ih =>
    rw [members_loop_cons]
    by_cases hn : m.1.name = m.2.name
    · obtain ⟨r, hr⟩ := h m (by simp)
      cases r
      · exact ⟨false, by simp [hn, hr]⟩
      · obtain ⟨r2, hr2⟩ := ih (fun m2 hm2 => h m2 (by simp [hm2]))
        exact ⟨r2, by simp [hn, hr, hr2]⟩
    · exact ⟨false, by simp [hn]⟩

theorem is_compat_struct_mono (c1 c2 : α → α → List (pair α) → Option Bool)
    (hc : ∀ x y w r, c1 x y w = some r → c2 x y w = some r)
    (a : α) (sa : struct_info α) (b : α) (sb : struct_info α)
    (v : List (pair α)) (r : Bool)
    (h : is_compat_struct c1 a sa b sb v = some r) :
    is_compat_struct c2 a sa b sb v = some r := by
  unfold is_compat_struct at h ⊢
  by_cases hs : seen a b v = true
  · simpa [hs] using h
  · by_cases hp : sa.N ≠ sb.N ∨ sa.tag ≠ sb.tag
    · simpa [hs, hp] using h
    · simp only [hs, hp, if_false] at h ⊢
      exact members_loop_mono _ _ (fun x y r hr => hc x y _ r hr) _ r h

/-- A call that returned keeps its result when given more fuel. -/
theorem is_compatible_r_mono (g : α → type α) :
    ∀ (f f2 : Nat) (a b : α) (v : List (pair α)) (r : Bool), f ≤ f2 →
      is_compatible_r g f a b v = some r → is_compatible_r g f2 a b v = some r := by
  intro f
  induction f with
  | zero => intro f2 a b v r _ h; simp [is_compatible_r_zero] at h
  | succ f ih =>
    intro f2 a b v r hle h
    obtain ⟨k, rfl⟩ : ∃ k, f2 = k + 1 := ⟨f2 - 1, by omega⟩
    have hk : f ≤ k := by omega
    by_cases hab : a = b
    · subst hab
      rw [is_compatible_r_same] at h ⊢
      exact h
    · rcases node_cases g a b with hkind | ⟨ha, hb⟩ | ⟨pa, pb, ha, hb⟩ | ⟨sa, sb, ha, hb⟩
      · rw [is_compatible_r_kind g _ v hab hkind] at h ⊢
        exact h
      · rw [is_compatible_r_int g _ v hab ha hb] at h ⊢
        exact h
      · rw [is_compatible_r_pointer g _ v hab ha hb] at h ⊢
        exact ih k pa pb v r hk h
      · rw [is_compatible_r_struct g _ v hab ha hb] at h ⊢
        exact is_compat_struct_mono _ _ (fun x y w r hr => ih k x y w r hk hr) _ _ _ _ _ _ h

/-! ### Symmetry -/

theorem members_loop_swap (c1 c2 : α → α → Option Bool)
    (hc : ∀ x y, c1 x y = c2 y x) :
    ∀ l1 l2 : List (struct_member α),
      members_loop c1 (l1.zip l2) = members_loop c2 (l2.zip l1) := by
  intro l1
  induction l1 with
  | nil => intro l2; simp [members_loop_nil]
  | cons m1 l1 ih =>
    intro l2
    cases l2 with
    | nil => simp [members_loop_nil]
    | cons m2 l2 =>
      simp only [List.zip_cons_cons, members_loop_cons, hc m1.type m2.type, ih l2]
      by_cases hn : m1.name = m2.name
      · simp [hn]
      · have hn2 : ¬ m2.name = m1.name := fun h => hn h.symm
        simp [hn, hn2]

theorem is_compatible_r_swap (g : α → type α) :
    ∀ (f : Nat) (a b : α) (v w : List (pair α)),
      (∀ x y, seen x y v = seen x y w) →
      is_compatible_r g f a b v = is_compatible_r g f b a w := by
  intro f
  induction f with
  | zero => intro a b v w _; rfl
  | succ f ih =>
    intro a b v w hvw
    by_cases hab : a = b
    · subst hab
      rw [is_compatible_r_same, is_compatible_r_same]
    · have hba : b ≠ a := fun h => hab h.symm
      rcases node_cases g a b with hkind | ⟨ha, hb⟩ | ⟨pa, pb, ha, hb⟩ | ⟨sa, sb, ha, hb⟩
      · rw [is_compatible_r_kind g _ v hab hkind,
          is_compatible_r_kind g _ w hba (fun h => hkind h.symm)]
      · rw [is_compatible_r_int g _ v hab ha hb, is_compatible_r_int g _ w hba hb ha]
      · rw [is_compatible_r_pointer g _ v hab ha hb,
          is_compatible_r_pointer g _ w hba hb ha]
        exact ih pa pb v w hvw
      · rw [is_compatible_r_struct g _ v hab ha hb,
          is_compatible_r_struct g _ w hba hb ha]
        unfold is_compat_struct
        have hs : seen b a w = seen a b v := by rw [seen_comm, hvw]
        have hp : (sb.N ≠ sa.N ∨ sb.tag ≠ sa.tag) ↔ (sa.N ≠ sb.N ∨ sa.tag ≠ sb.tag) := by
          constructor <;> (intro h; rcases h with h | h)
          · exact Or.inl (fun e => h e.symm)
          · exact Or.inr (fun e => h e.symm)
          · exact Or.inl (fun e => h e.symm)
          · exact Or.inr (fun e => h e.symm)
        have hl : members_loop (fun x y => is_compatible_r g f x y (⟨a, b⟩ :: v))
              (sa.members.zip sb.members) =
            members_loop (fun x y => is_compatible_r g f x y (⟨b, a⟩ :: w))
              (sb.members.zip sa.members) := by
          apply members_loop_swap
          intro x y
          apply ih
          intro x2 y2
          rw [seen_cons, seen_cons, hvw]
          congr 1
          simp only [decide_eq_decide]
          tauto
        simp only [hs, hp, hl]

/-! ### Pointer cycles -/

theorem ptr_cycle_none (f : Nat) (v : List (pair PtrNode)) :
    is_compatible_r ptr_cycle f PtrNode.p PtrNode.q v = none ∧
    is_compatible_r ptr_cycle f PtrNode.q PtrNode.p v = none := by
  induction f with
  | zero => exact ⟨rfl, rfl⟩
  | succ f ih =>
    constructor
    · rw [is_compatible_r_pointer ptr_cycle f v (by decide)
        (show ptr_cycle PtrNode.p = type.POINTER PtrNode.q from rfl)
        (show ptr_cycle PtrNode.q = type.POINTER PtrNode.p from rfl)]
      exact ih.2
    · rw [is_compatible_r_pointer ptr_cycle f v (by decide)
        (show ptr_cycle PtrNode.q = type.POINTER PtrNode.p from rfl)
        (show ptr_cycle PtrNode.p = type.POINTER PtrNode.q from rfl)]
      exact ih.1

/-! ### Termination -/

/-- In a finite graph without pointer cycles, going from a pointer to its
pointee is well founded. -/
theorem pointee_wf [Finite α] (g : α → type α) (h : StructOnCycles g) :
    WellFounded (fun y x => PtrEdge g x y) := by
  have hirr : IsIrrefl α (Relation.TransGen (Function.swap (PtrEdge g))) :=
    ⟨fun x hx => h x (Relation.transGen_swap.1 hx)⟩
  have hwf : WellFounded (Relation.TransGen (Function.swap (PtrEdge g))) :=
    Finite.wellFounded_of_trans_of_irrefl _
  have hsub : Subrelation (fun y x => PtrEdge g x y)
      (Relation.TransGen (Function.swap (PtrEdge g))) :=
    fun {x y} hxy => Relation.TransGen.single hxy
  exact Subrelation.wf hsub hwf

theorem unseen_cons_lt [Fintype α] (a b : α) (v : List (pair α))
    (hs : seen a b v = false) :
    (unseen (⟨a, b⟩ :: v)).card < (unseen v).card := by
  apply Finset.card_lt_card
  rw [Finset.ssubset_iff_of_subset]
  · refine ⟨(a, b), ?_, ?_⟩
    · simp [unseen, hs]
    · simp [unseen, seen_cons]
  · intro x hx
    simp only [unseen, Finset.mem_filter, Finset.mem_univ, true_and, seen_cons,
      Bool.or_eq_false_iff] at hx ⊢
    exact hx.2

/-- Fuel that suffices for each member call suffices for all of them. -/
theorem uniform_fuel (g : α → type α) (v : List (pair α))
    (l : List (struct_member α × struct_member α))
    (h : ∀ m ∈ l, ∃ f r, is_compatible_r g f m.1.type m.2.type v = some r) :
    ∃ F, ∀ m ∈ l, ∃ r, is_compatible_r g F m.1.type m.2.type v = some r := by
  induction l with
  | nil => exact ⟨0, by simp⟩
  | cons m rest ih =>
    obtain ⟨F, hF⟩ := ih (fun m2 hm2 => h m2 (by simp [hm2]))
    obtain ⟨f, r, hr⟩ := h m (by simp)
    refine ⟨max f F, ?_⟩
    intro m2 hm2
    rcases List.mem_cons.1 hm2 with rfl | hm
    · exact ⟨r, is_compatible_r_mono g f _ _ _ _ _ (le_max_left _ _) hr⟩
    · obtain ⟨r2, hr2⟩ := hF m2 hm
      exact ⟨r2, is_compatible_r_mono g F _ _ _ _ _ (le_max_right _ _) hr2⟩

theorem returns_aux [Fintype α] (g : α → type α)
    (hwf : WellFounded (fun y x => PtrEdge g x y)) :
    ∀ (n : Nat) (v : List (pair α)), (unseen v).card = n →
      ∀ a b, ∃ f r, is_compatible_r g f a b v = some r := by
  intro n
  induction n using Nat.strong_induction_on with
  | _ n ih =>
    intro v hv a
    refine hwf.induction (C := fun a => ∀ b, ∃ f r, is_compatible_r g f a b v = some r) a ?_
    intro a iha b
    by_cases hab : a = b
    · subst hab
      exact ⟨1, true, is_compatible_r_same g 0 a v⟩
    · rcases node_cases g a b with hkind | ⟨ha, hb⟩ | ⟨pa, pb, ha, hb⟩ | ⟨sa, sb, ha, hb⟩
      · exact ⟨1, false, is_compatible_r_kind g 0 v hab hkind⟩
      · exact ⟨1, true, is_compatible_r_int g 0 v hab ha hb⟩
      · obtain ⟨f, r, h⟩ := iha pa ha pb
        exact ⟨f + 1, r, by rw [is_compatible_r_pointer g f v hab ha hb]; exact h⟩
      · by_cases hs : seen a b v = true
        · exact ⟨1, true, by
            rw [is_compatible_r_struct g 0 v hab ha hb]; simp [is_compat_struct, hs]⟩
        · by_cases hp : sa.N ≠ sb.N ∨ sa.tag ≠ sb.tag
          · exact ⟨1, false, by
              rw [is_compatible_r_struct g 0 v hab ha hb]; simp [is_compat_struct, hs, hp]⟩
          · have hlt : (unseen (⟨a, b⟩ :: v)).card < n := by
              rw [← hv]
              exact unseen_cons_lt a b v (by simpa using hs)
            have hall := ih _ hlt (⟨a, b⟩ :: v) rfl
            obtain ⟨F, hF⟩ := uniform_fuel g (⟨a, b⟩ :: v) (sa.members.zip sb.members)
              (fun m _ => hall m.1.type m.2.type)
            obtain ⟨r, hr⟩ := members_loop_returns
              (fun x y => is_compatible_r g F x y (⟨a, b⟩ :: v)) _ hF
            exact ⟨F + 1, r, by
              rw [is_compatible_r_struct g F v hab ha hb]
              simp only [is_compat_struct, hs, hp, if_false]
              exact hr⟩

/-- In a finite graph without pointer cycles every call returns, and keeps
its result for all larger fuel. -/
theorem returns_of_structOnCycles [Finite α] (g : α → type α)
    (h : StructOnCycles g) (a b : α) (v : List (pair α)) :
    ∃ fuel r, ∀ f, fuel ≤ f → is_compatible_r g f a b v = some r := by
  cases nonempty_fintype α
  obtain ⟨fuel, r, hr⟩ := returns_aux g (pointee_wf g h) _ v rfl a b
  exact ⟨fuel, r, fun f hf => is_compatible_r_mono g fuel f a b v r hf hr⟩

/-- A rank that decreases from each pointer to its pointee rules out pointer
cycles. -/
theorem structOnCycles_of_rank (g : α → type α) (rank : α → Nat)
    (h : ∀ x y, g x = type.POINTER y → rank y < rank x) : StructOnCycles g := by
  have key : ∀ x y, Relation.TransGen (PtrEdge g) x y → rank y < rank x := by
    intro x y hxy
    induction hxy with
    | single hxy => exact h _ _ hxy
    | tail _ hyz ih => exact lt_trans (h _ _ hyz) ih
  intro x hx
  exact lt_irrefl _ (key x x hx)

/-! ### Structural equivalence -/

theorem get_iff_zip {β : Type} (P : β → β → Prop) (l1 l2 : List β)
    (hl : l1.length = l2.length) :
    (∀ (i : Nat) (h1 : i < l1.length) (h2 : i < l2.length),
        P (l1.get ⟨i, h1⟩) (l2.get ⟨i, h2⟩)) ↔
      ∀ m ∈ l1.zip l2, P m.1 m.2 := by
  have h1 : List.Forall₂ P l1 l2 ↔ l1.length = l2.length ∧
      ∀ (i : Nat) (h1 : i < l1.length) (h2 : i < l2.length),
        P (l1.get ⟨i, h1⟩) (l2.get ⟨i, h2⟩) := List.forall₂_iff_get
  have h2 : List.Forall₂ P l1 l2 ↔ l1.length = l2.length ∧
      ∀ {a b : β}, (a, b) ∈ l1.zip l2 → P a b := List.forall₂_iff_zip
  constructor
  · intro h m hm
    obtain ⟨_, h3⟩ := h2.1 (h1.2 ⟨hl, h⟩)
    exact @h3 m.1 m.2 hm
  · intro h
    exact (h1.1 (h2.2 ⟨hl, fun {a b} hab => h (a, b) hab⟩)).2

theorem StructStep.mono {g : α → type α} {R S : α → α → Prop} {x y : α}
    (hRS : ∀ u w, R u w → S u w) (h : StructStep g R x y) : StructStep g S x y := by
  refine ⟨h.1, fun p q hp hq => hRS _ _ (h.2.1 p q hp hq), ?_⟩
  intro s t hs ht
  obtain ⟨h1, h2, h3⟩ := h.2.2 s t hs ht
  exact ⟨h1, h2, fun i hi hj => ⟨(h3 i hi hj).1, hRS _ _ (h3 i hi hj).2⟩⟩

theorem StructStep.swap {g : α → type α} {R : α → α → Prop} {x y : α}
    (h : StructStep g R x y) : StructStep g (fun u w => R w u) y x := by
  refine ⟨h.1.symm, fun p q hp hq => h.2.1 q p hq hp, ?_⟩
  intro s t hs ht
  obtain ⟨h1, h2, h3⟩ := h.2.2 t s ht hs
  exact ⟨h1.symm, h2.symm, fun i hi hj => ⟨(h3 i hj hi).1.symm, (h3 i hj hi).2⟩⟩

theorem StructStep.same (g : α → type α) {R : α → α → Prop} (hR : ∀ u, R u u)
    (x : α) : StructStep g R x x := by
  refine ⟨rfl, ?_, ?_⟩
  · intro p q hp hq
    rw [hp] at hq
    cases hq
    exact hR p
  · intro s t hs ht
    rw [hs] at ht
    cases ht
    exact ⟨rfl, rfl, fun i hi _ => ⟨rfl, hR _⟩⟩

/-- The closure condition at a pair of structs, from the member lists read in
lock step. -/
theorem StructStep.of_structs {g : α → type α} {R : α → α → Prop} {a b : α}
    {sa sb : struct_info α} (ha : g a = type.STRUCT sa) (hb : g b = type.STRUCT sb)
    (htag : sa.tag = sb.tag) (hN : sa.N = sb.N)
    (hm : ∀ m ∈ sa.members.zip sb.members, m.1.name = m.2.name ∧ R m.1.type m.2.type) :
    StructStep g R a b := by
  refine ⟨by simp [ha, hb, type.kind], ?_, ?_⟩
  · intro p q hp
    rw [ha] at hp
    cases hp
  · intro s t hs ht
    rw [ha] at hs
    rw [hb] at ht
    cases hs
    cases ht
    exact ⟨htag, hN,
      (get_iff_zip (fun m1 m2 => m1.name = m2.name ∧ R m1.type m2.type) _ _ hN).2 hm⟩

/-- The member lists read in lock step, from the closure condition at a pair
of structs. -/
theorem StructStep.members {g : α → type α} {R : α → α → Prop} {a b : α}
    {sa sb : struct_info α} (h : StructStep g R a b)
    (ha : g a = type.STRUCT sa) (hb : g b = type.STRUCT sb) :
    sa.tag = sb.tag ∧ sa.N = sb.N ∧
      ∀ m ∈ sa.members.zip sb.members, m.1.name = m.2.name ∧ R m.1.type m.2.type := by
  obtain ⟨h1, h2, h3⟩ := h.2.2 sa sb ha hb
  exact ⟨h1, h2,
    (get_iff_zip (fun m1 m2 => m1.name = m2.name ∧ R m1.type m2.type) _ _ h2).1 h3⟩

theorem UpTo.consistent (g : α → type α) (v : List (pair α)) :
    Consistent g v (UpTo g v) := by
  intro x y hxy
  obtain ⟨R, hR, hxy⟩ := hxy
  rcases hR x y hxy with h | h | h
  · exact Or.inl h
  · exact Or.inr (Or.inl h)
  · exact Or.inr (Or.inr (h.mono (fun u w huw => ⟨R, hR, huw⟩)))

theorem UpTo.intro (g : α → type α) (v : List (pair α)) (x y : α)
    (h : x = y ∨ seen x y v = true ∨ StructStep g (UpTo g v) x y) : UpTo g v x y := by
  refine ⟨fun u w => UpTo g v u w ∨ (u = x ∧ w = y), ?_, Or.inr ⟨rfl, rfl⟩⟩
  intro u w huw
  rcases huw with huw | ⟨rfl, rfl⟩
  · rcases UpTo.consistent g v u w huw with h1 | h1 | h1
    · exact Or.inl h1
    · exact Or.inr (Or.inl h1)
    · exact Or.inr (Or.inr (h1.mono (fun _ _ h2 => Or.inl h2)))
  · rcases h with h1 | h1 | h1
    · exact Or.inl h1
    · exact Or.inr (Or.inl h1)
    · exact Or.inr (Or.inr (h1.mono (fun _ _ h2 => Or.inl h2)))

theorem UpTo.symm (g : α → type α) (v : List (pair α)) {x y : α}
    (h : UpTo g v x y) : UpTo g v y x := by
  obtain ⟨R, hR, hxy⟩ := h
  refine ⟨fun u w => R w u, ?_, hxy⟩
  intro u w huw
  rcases hR w u huw with h1 | h1 | h1
  · exact Or.inl h1.symm
  · exact Or.inr (Or.inl (by rw [seen_comm]; exact h1))
  · exact Or.inr (Or.inr h1.swap)

/-- Discharging the assumption pushed at a struct pair: if the members are
equivalent up to the extended trail, the structs are equivalent up to the
trail itself. -/
theorem UpTo.push (g : α → type α) (v : List (pair α)) {a b : α}
    {sa sb : struct_info α} (ha : g a = type.STRUCT sa) (hb : g b = type.STRUCT sb)
    (htag : sa.tag = sb.tag) (hN : sa.N = sb.N)
    (hm : ∀ m ∈ sa.members.zip sb.members,
      m.1.name = m.2.name ∧ UpTo g (⟨a, b⟩ :: v) m.1.type m.2.type) :
    UpTo g v a b := by
  let R : α → α → Prop :=
    fun u w => UpTo g (⟨a, b⟩ :: v) u w ∨ (u = a ∧ w = b) ∨ (u = b ∧ w = a)
  have hsym : ∀ u w, R w u → R u w := by
    intro u w h
    rcases h with h | ⟨h1, h2⟩ | ⟨h1, h2⟩
    · exact Or.inl (UpTo.symm g _ h)
    · exact Or.inr (Or.inr ⟨h2, h1⟩)
    · exact Or.inr (Or.inl ⟨h2, h1⟩)
  have hab : StructStep g R a b :=
    StructStep.of_structs ha hb htag hN (fun m hmem => ⟨(hm m hmem).1, Or.inl (hm m hmem).2⟩)
  have hba : StructStep g R b a := hab.swap.mono hsym
  have hpair : ∀ u w, (u = a ∧ w = b) ∨ (u = b ∧ w = a) → StructStep g R u w := by
    intro u w h
    rcases h with ⟨rfl, rfl⟩ | ⟨rfl, rfl⟩
    · exact hab
    · exact hba
  refine ⟨R, ?_, Or.inr (Or.inl ⟨rfl, rfl⟩)⟩
  intro u w huw
  rcases huw with huw | huw
  · rcases UpTo.consistent g _ u w huw with h1 | h1 | h1
    · exact Or.inl h1
    · rw [seen_cons, Bool.or_eq_true, decide_eq_true_eq] at h1
      rcases h1 with h1 | h1
      · exact Or.inr (Or.inr (hpair u w h1))
      · exact Or.inr (Or.inl h1)
    · exact Or.inr (Or.inr (h1.mono (fun _ _ h2 => Or.inl h2)))
  · exact Or.inr (Or.inr (hpair u w huw))

/-- A call that returns true has compared nodes equivalent up to its trail. -/
theorem upTo_of_true (g : α → type α) :
    ∀ (f : Nat) (a b : α) (v : List (pair α)),
      is_compatible_r g f a b v = some true → UpTo g v a b := by
  intro f
  induction f with
  | zero => intro a b v h; simp [is_compatible_r_zero] at h
  | succ f ih =>
    intro a b v h
    by_cases hab : a = b
    · exact UpTo.intro g v a b (Or.inl hab)
    · rcases node_cases g a b with hkind | ⟨ha, hb⟩ | ⟨pa, pb, ha, hb⟩ | ⟨sa, sb, ha, hb⟩
      · rw [is_compatible_r_kind g _ v hab hkind] at h
        simp at h
      · refine UpTo.intro g v a b (Or.inr (Or.inr ⟨by simp [ha, hb, type.kind], ?_, ?_⟩))
        · intro p q hp
          rw [ha] at hp
          cases hp
        · intro s t hs
          rw [ha] at hs
          cases hs
      · rw [is_compatible_r_pointer g _ v hab ha hb] at h
        have hp := ih pa pb v h
        refine UpTo.intro g v a b (Or.inr (Or.inr ⟨by simp [ha, hb, type.kind], ?_, ?_⟩))
        · intro p q hp2 hq2
          rw [ha] at hp2
          rw [hb] at hq2
          cases hp2
          cases hq2
          exact hp
        · intro s t hs
          rw [ha] at hs
          cases hs
      · rw [is_compatible_r_struct g _ v hab ha hb] at h
        by_cases hs : seen a b v = true
        · exact UpTo.intro g v a b (Or.inr (Or.inl hs))
        · by_cases hp : sa.N ≠ sb.N ∨ sa.tag ≠ sb.tag
          · rw [is_compat_struct_precheck _ _ _ _ _ _ hs hp] at h
            simp at h
          · rw [is_compat_struct_loop _ _ _ _ _ _ hs hp, members_loop_eq_true] at h
            have hN : sa.N = sb.N := by
              by_contra hne
              exact hp (Or.inl hne)
            have htag : sa.tag = sb.tag := by
              by_contra hne
              exact hp (Or.inr hne)
            exact UpTo.push g v ha hb htag hN
              (fun m hm => ⟨(h m hm).1, ih _ _ _ (h m hm).2⟩)

/-- Equivalence up to the empty trail is structural equivalence. -/
theorem structEquiv_of_upTo (g : α → type α) {a b : α} (h : UpTo g [] a b) :
    StructEquiv g a b := by
  refine ⟨fun x y => x = y ∨ UpTo g [] x y, Or.inr h, ?_⟩
  intro x y hxy
  have hsame : ∀ u, StructStep g (fun x y => x = y ∨ UpTo g [] x y) u u :=
    fun u => StructStep.same g (fun _ => Or.inl rfl) u
  rcases hxy with rfl | hxy
  · exact hsame x
  · rcases UpTo.consistent g [] x y hxy with rfl | h1 | h1
    · exact hsame x
    · simp [seen] at h1
    · exact h1.mono (fun _ _ h2 => Or.inr h2)

/-- A call on a pair of a relation closed under the conditions of structural
equivalence does not return false, whatever the trail. -/
theorem not_false_of_closed (g : α → type α) (R : α → α → Prop)
    (hR : ∀ x y, R x y → StructStep g R x y) :
    ∀ (f : Nat) (a b : α) (v : List (pair α)), R a b →
      is_compatible_r g f a b v ≠ some false := by
  intro f
  induction f with
  | zero => intro a b v _; simp [is_compatible_r_zero]
  | succ f ih =>
    intro a b v hab2
    have hstep := hR a b hab2
    by_cases hab : a = b
    · subst hab
      simp [is_compatible_r_same]
    · rcases node_cases g a b with hkind | ⟨ha, hb⟩ | ⟨pa, pb, ha, hb⟩ | ⟨sa, sb, ha, hb⟩
      · exact absurd hstep.1 hkind
      · simp [is_compatible_r_int g _ v hab ha hb]
      · rw [is_compatible_r_pointer g _ v hab ha hb]
        exact ih pa pb v (hstep.2.1 pa pb ha hb)
      · rw [is_compatible_r_struct g _ v hab ha hb]
        obtain ⟨htag, hN, hm⟩ := hstep.members ha hb
        by_cases hs : seen a b v = true
        · simp [is_compat_struct_seen _ _ _ _ _ _ hs]
        · have hp : ¬ (sa.N ≠ sb.N ∨ sa.tag ≠ sb.tag) := by
            intro h
            rcases h with h | h
            · exact h hN
            · exact h htag
          rw [is_compat_struct_loop _ _ _ _ _ _ hs hp]
          intro hfalse
          obtain ⟨m, hmem, h1⟩ := members_loop_eq_false _ _ hfalse
          rcases h1 with h1 | h1
          · exact h1 (hm m hmem).1
          · exact ih _ _ _ (hm m hmem).2 h1

/-- A call that returns false has a concrete mismatch below it. -/
theorem mismatch_of_false (g : α → type α) :
    ∀ (f : Nat) (a b : α) (v : List (pair α)),
      is_compatible_r g f a b v = some false →
      ∃ x y, Relation.ReflTransGen (Descent g) (a, b) (x, y) ∧ Mismatch g x y := by
  intro f
  induction f with
  | zero => intro a b v h; simp [is_compatible_r_zero] at h
  | succ f ih =>
    intro a b v h
    by_cases hab : a = b
    · subst hab
      simp [is_compatible_r_same] at h
    · rcases node_cases g a b with hkind | ⟨ha, hb⟩ | ⟨pa, pb, ha, hb⟩ | ⟨sa, sb, ha, hb⟩
      · exact ⟨a, b, Relation.ReflTransGen.refl, Or.inl hkind⟩
      · simp [is_compatible_r_int g _ v hab ha hb] at h
      · rw [is_compatible_r_pointer g _ v hab ha hb] at h
        obtain ⟨x, y, hxy, hm⟩ := ih pa pb v h
        exact ⟨x, y, Relation.ReflTransGen.head (Descent.pointee ha hb) hxy, hm⟩
      · rw [is_compatible_r_struct g _ v hab ha hb] at h
        by_cases hs : seen a b v = true
        · simp [is_compat_struct_seen _ _ _ _ _ _ hs] at h
        · by_cases hp : sa.N ≠ sb.N ∨ sa.tag ≠ sb.tag
          · refine ⟨a, b, Relation.ReflTransGen.refl, Or.inr ⟨sa, sb, ha, hb, ?_⟩⟩
            rcases hp with hp | hp
            · exact Or.inr (Or.inl hp)
            · exact Or.inl hp
          · rw [is_compat_struct_loop _ _ _ _ _ _ hs hp] at h
            obtain ⟨m, hmem, h1⟩ := members_loop_eq_false _ _ h
            rcases h1 with h1 | h1
            · exact ⟨a, b, Relation.ReflTransGen.refl,
                Or.inr ⟨sa, sb, ha, hb, Or.inr (Or.inr ⟨m, hmem, h1⟩)⟩⟩
            · obtain ⟨x, y, hxy, hm⟩ := ih _ _ _ h1
              exact ⟨x, y, Relation.ReflTransGen.head (Descent.member ha hb hmem) hxy, hm⟩

/-- In a finite graph without pointer cycles, structurally equivalent nodes
are found compatible, whatever the trail. -/
theorem true_of_closed [Finite α] (g : α → type α) (hg : StructOnCycles g)
    (R : α → α → Prop) (hR : ∀ x y, R x y → StructStep g R x y) (a b : α)
    (hab : R a b) (v : List (pair α)) :
    ∃ fuel, ∀ f, fuel ≤ f → is_compatible_r g f a b v = some true := by
  obtain ⟨fuel, r, hr⟩ := returns_of_structOnCycles g hg a b v
  refine ⟨fuel, fun f hf => ?_⟩
  have h := hr f hf
  cases r
  · exact absurd h (not_false_of_closed g R hR f a b v hab)
  · exact h

/-! ### Maps of the graph -/

theorem StructStep.of_ints {g : α → type α} {R : α → α → Prop} {a b : α}
    (ha : g a = type.INT) (hb : g b = type.INT) : StructStep g R a b := by
  refine ⟨by simp [ha, hb], ?_, ?_⟩
  · intro p q hp
    rw [ha] at hp
    cases hp
  · intro s t hs
    rw [ha] at hs
    cases hs

theorem StructStep.of_pointers {g : α → type α} {R : α → α → Prop} {a b pa pb : α}
    (ha : g a = type.POINTER pa) (hb : g b = type.POINTER pb) (h : R pa pb) :
    StructStep g R a b := by
  refine ⟨by simp [ha, hb, type.kind], ?_, ?_⟩
  · intro p q hp hq
    rw [ha] at hp
    rw [hb] at hq
    cases hp
    cases hq
    exact h
  · intro s t hs
    rw [ha] at hs
    cases hs

theorem mem_zip_map {β : Type} (f : β → β) (l : List β) :
    ∀ m ∈ l.zip (l.map f), m.1 ∈ l ∧ m.2 = f m.1 := by
  induction l with
  | nil => simp
  | cons x l ih =>
    intro m hm
    simp only [List.map_cons, List.zip_cons_cons, List.mem_cons] at hm
    rcases hm with rfl | hm
    · simp
    · exact ⟨List.mem_cons_of_mem _ (ih m hm).1, (ih m hm).2⟩

/-- A node is structurally equivalent to its image under a map onto a clone. -/
theorem structEquiv_of_clone (g : α → type α) (φ : α → α) (n : α)
    (hφ : CloneFrom g φ n) : StructEquiv g n (φ n) := by
  refine ⟨fun x y => Relation.ReflTransGen (RefEdge g) n x ∧ y = φ x,
    ⟨Relation.ReflTransGen.refl, rfl⟩, ?_⟩
  rintro x y ⟨hx, rfl⟩
  have hgx := hφ x hx
  cases hx2 : g x with
  | INT =>
    rw [hx2] at hgx
    exact StructStep.of_ints hx2 hgx
  | POINTER p =>
    rw [hx2] at hgx
    exact StructStep.of_pointers hx2 hgx ⟨hx.tail (Or.inl hx2), rfl⟩
  | STRUCT s =>
    rw [hx2] at hgx
    refine StructStep.of_structs hx2 hgx rfl (by simp [struct_info.N]) ?_
    intro m hm
    obtain ⟨h1, h2⟩ := mem_zip_map (fun m : struct_member α => ⟨m.name, φ m.type⟩) _ m hm
    rw [h2]
    exact ⟨rfl, hx.tail (Or.inr ⟨s, hx2, m.1, h1, rfl⟩), rfl⟩

/-- A copy of the same shape whose tags agree with the original is a clone. -/
theorem cloneFrom_of_shapeFrom (g : α → type α) (φ : α → α) (n : α)
    (hφ : ShapeFrom g φ n)
    (htag : ∀ x s t, Relation.ReflTransGen (RefEdge g) n x →
      g x = type.STRUCT s → g (φ x) = type.STRUCT t → s.tag = t.tag) :
    CloneFrom g φ n := by
  intro x hx
  have h := hφ x hx
  have ht := htag x
  cases hx2 : g x with
  | INT =>
    rw [hx2] at h
    cases hy : g (φ x) <;> rw [hy] at h <;> simp [type.untag, type.map] at h ⊢
  | POINTER p =>
    rw [hx2] at h
    cases hy : g (φ x) <;> rw [hy] at h <;> simp [type.untag, type.map] at h ⊢
    exact h
  | STRUCT s =>
    rw [hx2] at h
    cases hy : g (φ x) with
    | INT => rw [hy] at h; simp [type.untag, type.map] at h
    | POINTER q => rw [hy] at h; simp [type.untag, type.map] at h
    | STRUCT t =>
      rw [hy] at h
      have h1 := ht s t hx hx2 hy
      simp only [type.untag, type.map, type.STRUCT.injEq, struct_info.mk.injEq, true_and] at h
      cases t
      simp only at h h1
      simp [type.map, h, h1]

/-! ### The graph of `main` -/

theorem main_graph_structOnCycles : StructOnCycles main_graph := by
  apply structOnCycles_of_rank main_graph main_rank
  intro x y h
  cases x <;> simp [main_graph] at h <;> subst h <;> decide

theorem main_clone_cloneFrom (n : Node) : CloneFrom main_graph main_clone n := by
  intro x _
  cases x <;> rfl

theorem main_fold_cloneFrom (n : Node) : CloneFrom main_graph main_fold n := by
  intro x _
  cases x <;> rfl

theorem main_halves_shapeFrom (n : Node) : ShapeFrom main_graph main_halves n := by
  intro x _
  cases x <;> rfl

/-! ### Mismatches below a pair -/

/-- A relation closed under the conditions of structural equivalence contains
every pair reached from one of its pairs by lock-step descent. -/
theorem closed_descent (g : α → type α) (R : α → α → Prop)
    (hR : ∀ x y, R x y → StructStep g R x y) (c d : α × α)
    (h : Relation.ReflTransGen (Descent g) c d) : R c.1 c.2 → R d.1 d.2 := by
  induction h with
  | refl => exact id
  | tail _ hstep ih =>
    intro hc
    have hprev := ih hc
    cases hstep with
    | pointee hx hy => exact (hR _ _ hprev).2.1 _ _ hx hy
    | member hx hy hm => exact (((hR _ _ hprev).members hx hy).2.2 _ hm).2

theorem StructStep.not_mismatch {g : α → type α} {R : α → α → Prop} {x y : α}
    (h : StructStep g R x y) : ¬ Mismatch g x y := by
  rintro (hk | ⟨s, t, hs, ht, hm⟩)
  · exact hk h.1
  · obtain ⟨h1, h2, h3⟩ := h.members hs ht
    rcases hm with hm | hm | ⟨m, hmem, hm⟩
    · exact hm h1
    · exact hm h2
    · exact hm (h3 m hmem).1

/-- In a finite graph without pointer cycles, a mismatch reached from `(a, b)`
by lock-step descent makes `is_compatible(a, b)` return false. -/
theorem false_of_mismatch [Finite α] (g : α → type α) (hg : StructOnCycles g)
    (a b x y : α) (hreach : Relation.ReflTransGen (Descent g) (a, b) (x, y))
    (hm : Mismatch g x y) :
    ∃ fuel, ∀ f, fuel ≤ f → is_compatible_r g f a b [] = some false := by
  obtain ⟨fuel, r, hr⟩ := returns_of_structOnCycles g hg a b []
  refine ⟨fuel, fun f hf => ?_⟩
  have h := hr f hf
  cases r
  · exact h
  · obtain ⟨R, hab, hR⟩ := structEquiv_of_upTo g (upTo_of_true g f a b [] h)
    have hxy := closed_descent g R hR (a, b) (x, y) hreach hab
    exact absurd hm (hR x y hxy).not_mismatch

/-- A struct member reached through two pointer members at the same index. -/
theorem descent_hop (g : α → type α) {x y x2 y2 : α} {sx sy : struct_info α}
    (m : struct_member α × struct_member α)
    (hx : g x = type.STRUCT sx) (hy : g y = type.STRUCT sy)
    (hm : m ∈ sx.members.zip sy.members)
    (hpx : g m.1.type = type.POINTER x2) (hpy : g m.2.type = type.POINTER y2) :
    Relation.ReflTransGen (Descent g) (x, y) (x2, y2) :=
  (Relation.ReflTransGen.single (Descent.member hx hy hm)).tail
    (Descent.pointee hpx hpy)

/-! ### Structural equivalence is an equivalence -/

theorem structEquiv_step (g : α → type α) {x y : α} (h : StructEquiv g x y) :
    StructStep g (StructEquiv g) x y := by
  obtain ⟨R, hxy, hR⟩ := h
  exact (hR x y hxy).mono (fun u w huw => ⟨R, huw, hR⟩)

theorem structEquiv_symm (g : α → type α) {x y : α} (h : StructEquiv g x y) :
    StructEquiv g y x := by
  obtain ⟨R, hxy, hR⟩ := h
  exact ⟨fun u w => R w u, hxy, fun u w huw => (hR w u huw).swap⟩

theorem StructStep.comp {g : α → type α} {R S : α → α → Prop} {x y z : α}
    (h1 : StructStep g R x y) (h2 : StructStep g S y z) :
    StructStep g (fun u w => ∃ t, R u t ∧ S t w) x z := by
  refine ⟨h1.1.trans h2.1, ?_, ?_⟩
  · intro p q hp hq
    cases hy : g y with
    | INT => have := h1.1; rw [hp, hy] at this; simp [type.kind] at this
    | STRUCT u => have := h1.1; rw [hp, hy] at this; simp [type.kind] at this
    | POINTER r => exact ⟨r, h1.2.1 p r hp hy, h2.2.1 r q hy hq⟩
  · intro s t hs ht
    cases hy : g y with
    | INT => have := h1.1; rw [hs, hy] at this; simp [type.kind] at this
    | POINTER r => have := h1.1; rw [hs, hy] at this; simp [type.kind] at this
    | STRUCT u =>
      obtain ⟨a1, a2, a3⟩ := h1.2.2 s u hs hy
      obtain ⟨b1, b2, b3⟩ := h2.2.2 u t hy ht
      refine ⟨a1.trans b1, a2.trans b2, ?_⟩
      intro i hi hj
      have hu : i < u.members.length := by
        have := a2
        simp only [struct_info.N] at this
        omega
      exact ⟨(a3 i hi hu).1.trans (b3 i hu hj).1, _, (a3 i hi hu).2, (b3 i hu hj).2⟩

theorem structEquiv_trans (g : α → type α) {x y z : α} (h1 : StructEquiv g x y)
    (h2 : StructEquiv g y z) : StructEquiv g x z := by
  refine ⟨fun u w => ∃ t, StructEquiv g u t ∧ StructEquiv g t w, ⟨y, h1, h2⟩, ?_⟩
  rintro u w ⟨t, hut, htw⟩
  exact (structEquiv_step g hut).comp (structEquiv_step g htw)

/-- Nodes equivalent up to a trail of structurally equivalent pairs are
structurally equivalent. -/
theorem structEquiv_of_upTo_trail (g : α → type α) (v : List (pair α))
    (hv : ∀ p ∈ v, StructEquiv g p.a p.b) {a b : α} (h : UpTo g v a b) :
    StructEquiv g a b := by
  obtain ⟨R, hR, hab⟩ := h
  refine ⟨fun x y => x = y ∨ R x y ∨ StructEquiv g x y, Or.inr (Or.inl hab), ?_⟩
  have hsame : ∀ u, StructStep g (fun x y => x = y ∨ R x y ∨ StructEquiv g x y) u u :=
    fun u => StructStep.same g (fun _ => Or.inl rfl) u
  have hequiv : ∀ x y, StructEquiv g x y →
      StructStep g (fun x y => x = y ∨ R x y ∨ StructEquiv g x y) x y :=
    fun x y hxy => (structEquiv_step g hxy).mono (fun _ _ h2 => Or.inr (Or.inr h2))
  rintro x y (rfl | hxy | hxy)
  · exact hsame x
  · rcases hR x y hxy with rfl | h1 | h1
    · exact hsame x
    · obtain ⟨p, hp, h2⟩ := (seen_iff x y v).1 h1
      rcases h2 with ⟨rfl, rfl⟩ | ⟨rfl, rfl⟩
      · exact hequiv _ _ (hv p hp)
      · exact hequiv _ _ (structEquiv_symm g (hv p hp))
    · exact h1.mono (fun _ _ h2 => Or.inr (Or.inl h2))
  · exact hequiv x y hxy

/-! ### Larger trails -/

/-- A call that returns true returns true, with the same fuel, under every
trail that holds the pairs of its trail. -/
theorem true_of_larger_trail (g : α → type α) :
    ∀ (f : Nat) (a b : α) (v w : List (pair α)),
      (∀ x y, seen x y v = true → seen x y w = true) →
      is_compatible_r g f a b v = some true →
      is_compatible_r g f a b w = some true := by
  intro f
  induction f with
  | zero => intro a b v w _ h; simp [is_compatible_r_zero] at h
  | succ f ih =>
    intro a b v w hvw h
    by_cases hab : a = b
    · subst hab
      exact is_compatible_r_same g f a w
    · rcases node_cases g a b with hkind | ⟨ha, hb⟩ | ⟨pa, pb, ha, hb⟩ | ⟨sa, sb, ha, hb⟩
      · rw [is_compatible_r_kind g _ v hab hkind] at h
        simp at h
      · exact is_compatible_r_int g _ w hab ha hb
      · rw [is_compatible_r_pointer g _ v hab ha hb] at h
        rw [is_compatible_r_pointer g _ w hab ha hb]
        exact ih pa pb v w hvw h
      · rw [is_compatible_r_struct g _ v hab ha hb] at h
        rw [is_compatible_r_struct g _ w hab ha hb]
        by_cases hw : seen a b w = true
        · exact is_compat_struct_seen _ _ _ _ _ _ hw
        · have hs : ¬ seen a b v = true := fun hs => hw (hvw a b hs)
          by_cases hp : sa.N ≠ sb.N ∨ sa.tag ≠ sb.tag
          · rw [is_compat_struct_precheck _ _ _ _ _ _ hs hp] at h
            simp at h
          · rw [is_compat_struct_loop _ _ _ _ _ _ hs hp, members_loop_eq_true] at h
            rw [is_compat_struct_loop _ _ _ _ _ _ hw hp, members_loop_eq_true]
            intro m hm
            refine ⟨(h m hm).1, ih _ _ _ _ ?_ (h m hm).2⟩
            intro x y hxy
            rw [seen_cons, Bool.or_eq_true] at hxy ⊢
            exact hxy.imp id (hvw x y)

/-! ### The trail -/

theorem trailOK_nil (g : α → type α) : TrailOK g [] :=
  ⟨fun _ h => (by cases h), List.Pairwise.nil⟩

/-- The engine is its body iterated. -/
theorem is_compatible_r_unfold (g : α → type α) (fuel : Nat) (a b : α)
    (v : List (pair α)) :
    is_compatible_r g (fuel + 1) a b v =
      is_compatible_r_step g (is_compatible_r g fuel) a b v := rfl

theorem is_compatible_r_step_same (g : α → type α)
    (self : α → α → List (pair α) → Option Bool) (a : α) (v : List (pair α)) :
    is_compatible_r_step g self a a v = some true := by
  simp [is_compatible_r_step]

theorem is_compatible_r_step_kind (g : α → type α)
    (self : α → α → List (pair α) → Option Bool) {a b : α} (v : List (pair α))
    (hab : a ≠ b) (hk : (g a).kind ≠ (g b).kind) :
    is_compatible_r_step g self a b v = some false := by
  simp [is_compatible_r_step, hab, hk]

theorem is_compatible_r_step_int (g : α → type α)
    (self : α → α → List (pair α) → Option Bool) {a b : α} (v : List (pair α))
    (hab : a ≠ b) (ha : g a = type.INT) (hb : g b = type.INT) :
    is_compatible_r_step g self a b v = some true := by
  simp [is_compatible_r_step, hab, ha, hb]

theorem is_compatible_r_step_pointer (g : α → type α)
    (self : α → α → List (pair α) → Option Bool) {a b pa pb : α}
    (v : List (pair α)) (hab : a ≠ b) (ha : g a = type.POINTER pa)
    (hb : g b = type.POINTER pb) :
    is_compatible_r_step g self a b v = self pa pb v := by
  simp [is_compatible_r_step, hab, ha, hb, type.kind]

theorem is_compatible_r_step_struct (g : α → type α)
    (self : α → α → List (pair α) → Option Bool) {a b : α}
    {sa sb : struct_info α} (v : List (pair α)) (hab : a ≠ b)
    (ha : g a = type.STRUCT sa) (hb : g b = type.STRUCT sb) :
    is_compatible_r_step g self a b v = is_compat_struct self a sa b sb v := by
  simp [is_compatible_r_step, hab, ha, hb, type.kind]

/-- The member loop reads `cmp` at the member types only. -/
theorem members_loop_congr (c1 c2 : α → α → Option Bool)
    (l : List (struct_member α × struct_member α))
    (h : ∀ m ∈ l, c1 m.1.type m.2.type = c2 m.1.type m.2.type) :
    members_loop c1 l = members_loop c2 l := by
  induction l with
  | nil => rfl
  | cons m rest ih =>
    rw [members_loop_cons, members_loop_cons, h m (by simp),
      ih (fun m2 hm2 => h m2 (by simp [hm2]))]

/-- The member loop does not return when the call at some index does not
return, the names are equal up to that index and no call before it returns
false. -/
theorem members_loop_none (cmp : α → α → Option Bool)
    (l1 l2 : List (struct_member α × struct_member α))
    (m : struct_member α × struct_member α)
    (h1 : ∀ m2 ∈ l1, m2.1.name = m2.2.name ∧ cmp m2.1.type m2.2.type ≠ some false)
    (hname : m.1.name = m.2.name) (hm : cmp m.1.type m.2.type = none) :
    members_loop cmp (l1 ++ m :: l2) = none := by
  induction l1 with
  | nil => simp [members_loop_cons, hname, hm]
  | cons m2 rest ih =>
    obtain ⟨hn, hc⟩ := h1 m2 (by simp)
    have hrest := ih (fun m3 hm3 => h1 m3 (by simp [hm3]))
    rw [List.cons_append, members_loop_cons]
    rcases hcmp : cmp m2.1.type m2.2.type with _ | r
    · simp [hn]
    · cases r
      · exact absurd hcmp hc
      · simp [hn, hrest]

/-- What a call of the engine is: made by a call on two distinct nodes, with
the trail of that call, or with that trail extended by the pair of its nodes,
two structs that are not on it. -/
theorem engineCalls_trail (g : α → type α) {c d : α × α × List (pair α)}
    (h : EngineCalls g c d) :
    d.2.2 = c.2.2 ∨
    (d.2.2 = ⟨c.1, c.2.1⟩ :: c.2.2 ∧ c.1 ≠ c.2.1 ∧ (g c.1).kind = kind.STRUCT ∧
      (g c.2.1).kind = kind.STRUCT ∧ seen c.1 c.2.1 c.2.2 = false) := by
  obtain ⟨a, b, v⟩ := c
  obtain ⟨x, y, w⟩ := d
  obtain ⟨self, self2, hagree, hne⟩ := h
  simp only at hagree hne ⊢
  by_cases hab : a = b
  · subst hab
    rw [is_compatible_r_step_same, is_compatible_r_step_same] at hne
    exact absurd rfl hne
  · rcases node_cases g a b with hkind | ⟨ha, hb⟩ | ⟨pa, pb, ha, hb⟩ | ⟨sa, sb, ha, hb⟩
    · rw [is_compatible_r_step_kind g self v hab hkind,
        is_compatible_r_step_kind g self2 v hab hkind] at hne
      exact absurd rfl hne
    · rw [is_compatible_r_step_int g self v hab ha hb,
        is_compatible_r_step_int g self2 v hab ha hb] at hne
      exact absurd rfl hne
    · rw [is_compatible_r_step_pointer g self v hab ha hb,
        is_compatible_r_step_pointer g self2 v hab ha hb] at hne
      left
      by_contra hw
      exact hne (hagree pa pb v (fun h3 => hw h3.2.2.symm))
    · rw [is_compatible_r_step_struct g self v hab ha hb,
        is_compatible_r_step_struct g self2 v hab ha hb] at hne
      by_cases hs : seen a b v = true
      · rw [is_compat_struct_seen self _ _ _ _ _ hs,
          is_compat_struct_seen self2 _ _ _ _ _ hs] at hne
        exact absurd rfl hne
      · by_cases hp : sa.N ≠ sb.N ∨ sa.tag ≠ sb.tag
        · rw [is_compat_struct_precheck self _ _ _ _ _ hs hp,
            is_compat_struct_precheck self2 _ _ _ _ _ hs hp] at hne
          exact absurd rfl hne
        · rw [is_compat_struct_loop self _ _ _ _ _ hs hp,
            is_compat_struct_loop self2 _ _ _ _ _ hs hp] at hne
          right
          refine ⟨?_, hab, by simp [ha, type.kind], by simp [hb, type.kind],
            by simpa using hs⟩
          by_contra hw
          apply hne
          apply members_loop_congr
          intro m _
          exact hagree _ _ _ (fun h3 => hw h3.2.2.symm)

/-- Each call the engine makes keeps the invariant of the trail. -/
theorem trailOK_step (g : α → type α) {c d : α × α × List (pair α)}
    (h : EngineCalls g c d) (hc : TrailOK g c.2.2) : TrailOK g d.2.2 := by
  rcases engineCalls_trail g h with hd | ⟨hd, hab, ha, hb, hs⟩
  · rw [hd]
    exact hc
  · rw [hd]
    refine ⟨?_, List.pairwise_cons.2 ⟨?_, hc.2⟩⟩
    · intro p hp
      rcases List.mem_cons.1 hp with rfl | hp
      · exact ⟨hab, ha, hb⟩
      · exact hc.1 p hp
    · intro q hq hsame
      have : seen c.1 c.2.1 c.2.2 = true := (seen_iff _ _ _).2 ⟨q, hq, hsame⟩
      rw [hs] at this
      cases this

theorem trailOK_reachable (g : α → type α) {c d : α × α × List (pair α)}
    (h : Relation.ReflTransGen (EngineCalls g) c d) (hc : TrailOK g c.2.2) :
    TrailOK g d.2.2 := by
  induction h with
  | refl => exact hc
  | tail _ hstep ih => exact trailOK_step g hstep ih

/-- The calls made in a run are calls of the engine. -/
theorem calls_engineCalls (g : α → type α) {c d : α × α × List (pair α)}
    (h : Calls g c d) : EngineCalls g c d := by
  cases h with
  | @pointee a b pa pb v hab ha hb =>
    refine ⟨fun _ _ _ => some true,
      fun x y w => if x = pa ∧ y = pb ∧ w = v then none else some true, ?_, ?_⟩
    · intro x2 y2 w2 h2
      simp only at h2
      simp [h2]
    · simp only
      rw [is_compatible_r_step_pointer g _ v hab ha hb,
        is_compatible_r_step_pointer g _ v hab ha hb]
      simp
  | @member a b sa sb v l1 l2 m hab ha hb hs hN htag hzip hbefore hm =>
    refine ⟨fun _ _ _ => some true,
      fun x y w => if x = m.1.type ∧ y = m.2.type ∧ w = ⟨a, b⟩ :: v then none
        else some true, ?_, ?_⟩
    · intro x2 y2 w2 h2
      simp only at h2
      simp [h2]
    · simp only
      have hs2 : ¬ seen a b v = true := by simp [hs]
      have hp : ¬ (sa.N ≠ sb.N ∨ sa.tag ≠ sb.tag) := by
        rintro (h3 | h3)
        · exact h3 hN
        · exact h3 htag
      rw [is_compatible_r_step_struct g _ v hab ha hb,
        is_compatible_r_step_struct g _ v hab ha hb,
        is_compat_struct_loop _ _ _ _ _ _ hs2 hp,
        is_compat_struct_loop _ _ _ _ _ _ hs2 hp, hzip]
      obtain ⟨r, hr⟩ := members_loop_returns
        (fun x y => (fun _ _ _ => some true : α → α → List (pair α) → Option Bool)
          x y (⟨a, b⟩ :: v)) (l1 ++ m :: l2) (fun _ _ => ⟨true, rfl⟩)
      rw [hr, members_loop_none _ l1 l2 m ?_ hm (by simp)]
      · simp
      · intro m2 hm2
        refine ⟨(hbefore m2 hm2).1, ?_⟩
        by_cases h4 : m2.1.type = m.1.type ∧ m2.2.type = m.2.type <;> simp [h4]

/-- A trail that satisfies the invariant is no longer than the number of
unordered pairs of distinct struct nodes. -/
theorem trailOK_length_le [Fintype α] (g : α → type α) (v : List (pair α))
    (h : TrailOK g v) : v.length ≤ (struct_nodes g).card.choose 2 := by
  classical
  have hnodup : (v.map (fun p => s(p.a, p.b))).Nodup := by
    rw [List.Nodup, List.pairwise_map]
    refine h.2.imp ?_
    intro x y hxy heq
    exact hxy (Sym2.eq_iff.1 heq)
  have hsub : (v.map (fun p => s(p.a, p.b))).toFinset ⊆
      (struct_nodes g).offDiag.image Sym2.mk := by
    intro z hz
    rw [List.mem_toFinset, List.mem_map] at hz
    obtain ⟨p, hp, rfl⟩ := hz
    obtain ⟨h1, h2, h3⟩ := h.1 p hp
    rw [Finset.mem_image]
    refine ⟨(p.a, p.b), ?_, rfl⟩
    simp [Finset.mem_offDiag, struct_nodes, h1, h2, h3]
  have hcard := Finset.card_le_card hsub
  rw [List.toFinset_card_of_nodup hnodup, List.length_map,
    Sym2.card_image_offDiag] at hcard
  exact hcard

/-! ### The test clusters with an additional member -/

theorem insert_member_length (k : Nat) (m : struct_member α)
    (l : List (struct_member α)) : (insert_member k m l).length = l.length + 1 := by
  simp only [insert_member, List.length_append, List.length_cons, List.length_take,
    List.length_drop]
  omega

theorem main_extra_pointer (s : Node) (k : Nat) (m : struct_member Node)
    (x y : Node) (h : main_extra s k m x = type.POINTER y) :
    main_graph x = type.POINTER y := by
  unfold main_extra at h
  by_cases hx : x = s
  · rw [if_pos hx] at h
    cases hm : main_graph x with
    | INT => rw [hm] at h; cases h
    | POINTER p => rw [hm] at h; exact h
    | STRUCT si => rw [hm] at h; cases h
  · rw [if_neg hx] at h
    exact h

theorem main_extra_structOnCycles (s : Node) (k : Nat) (m : struct_member Node) :
    StructOnCycles (main_extra s k m) := by
  apply structOnCycles_of_rank (main_extra s k m) main_rank
  intro x y h
  have h2 := main_extra_pointer s k m x y h
  cases x <;> simp [main_graph] at h2 <;> subst h2 <;> decide

theorem main_extra_mismatch (s : Node) (k : Nat) (m : struct_member Node)
    (x : Node) (sx ss : struct_info Node) (hx : main_graph x = type.STRUCT sx)
    (hs : main_graph s = type.STRUCT ss) (hne : x ≠ s) (hN : sx.N = ss.N) :
    Mismatch (main_extra s k m) x s := by
  refine Or.inr ⟨sx, ⟨ss.tag, insert_member k m ss.members⟩, ?_, ?_, Or.inr (Or.inl ?_)⟩
  · simp [main_extra, hne, hx]
  · simp [main_extra, hs]
  · simp only [struct_info.N, insert_member_length] at hN ⊢
    omega

theorem path_str1_str2 (g : Node → type Node)
    (h1 : g Node.str1 = main_graph Node.str1) (h2 : g Node.str1b = main_graph Node.str1b)
    (h3 : g Node.str1_b = main_graph Node.str1_b)
    (h4 : g Node.str1b_b = main_graph Node.str1b_b) :
    Relation.ReflTransGen (Descent g) (Node.str1, Node.str1b) (Node.str2, Node.str2b) :=
  descent_hop g (⟨"b", Node.str1_b⟩, ⟨"b", Node.str1b_b⟩) (h1.trans rfl) (h2.trans rfl)
    (by simp) (h3.trans rfl) (h4.trans rfl)

theorem path_str2_str6 (g : Node → type Node)
    (h1 : g Node.str2 = main_graph Node.str2) (h2 : g Node.str2b = main_graph Node.str2b)
    (h3 : g Node.str2_b = main_graph Node.str2_b)
    (h4 : g Node.str2b_b = main_graph Node.str2b_b) :
    Relation.ReflTransGen (Descent g) (Node.str2, Node.str2b) (Node.str6, Node.str6b) :=
  descent_hop g (⟨"b", Node.str2_b⟩, ⟨"b", Node.str2b_b⟩) (h1.trans rfl) (h2.trans rfl)
    (by simp) (h3.trans rfl) (h4.trans rfl)

theorem path_str2_str3 (g : Node → type Node)
    (h1 : g Node.str2 = main_graph Node.str2) (h2 : g Node.str2b = main_graph Node.str2b)
    (h3 : g Node.str2_c = main_graph Node.str2_c)
    (h4 : g Node.str2b_c = main_graph Node.str2b_c) :
    Relation.ReflTransGen (Descent g) (Node.str2, Node.str2b) (Node.str3, Node.str3b) :=
  descent_hop g (⟨"c", Node.str2_c⟩, ⟨"c", Node.str2b_c⟩) (h1.trans rfl) (h2.trans rfl)
    (by simp) (h3.trans rfl) (h4.trans rfl)

theorem path_str6_str4 (g : Node → type Node)
    (h1 : g Node.str6 = main_graph Node.str6) (h2 : g Node.str6b = main_graph Node.str6b)
    (h3 : g Node.str6_b = main_graph Node.str6_b)
    (h4 : g Node.str6b_b = main_graph Node.str6b_b) :
    Relation.ReflTransGen (Descent g) (Node.str6, Node.str6b) (Node.str4, Node.str4b) :=
  descent_hop g (⟨"b", Node.str6_b⟩, ⟨"b", Node.str6b_b⟩) (h1.trans rfl) (h2.trans rfl)
    (by simp) (h3.trans rfl) (h4.trans rfl)

theorem path_str4_str5 (g : Node → type Node)
    (h1 : g Node.str4 = main_graph Node.str4) (h2 : g Node.str4b = main_graph Node.str4b)
    (h3 : g Node.str4_b = main_graph Node.str4_b)
    (h4 : g Node.str4b_b = main_graph Node.str4b_b) :
    Relation.ReflTransGen (Descent g) (Node.str4, Node.str4b) (Node.str5, Node.str5b) :=
  descent_hop g (⟨"b", Node.str4_b⟩, ⟨"b", Node.str4b_b⟩) (h1.trans rfl) (h2.trans rfl)
    (by simp) (h3.trans rfl) (h4.trans rfl)

/-- In `main` with an additional member in one struct of the second cluster,
the pair of that struct and its original is reached from `(str1, str1b)` and
shows a mismatch of member count. -/
theorem main_extra_reach (s : Node) (hs : s ∈ clone_structs) (k : Nat)
    (m : struct_member Node) :
    ∃ x, Relation.ReflTransGen (Descent (main_extra s k m))
      (Node.str1, Node.str1b) (x, s) ∧ Mismatch (main_extra s k m) x s := by
  simp only [clone_structs, List.mem_cons, List.mem_singleton, List.not_mem_nil,
    or_false] at hs
  rcases hs with rfl | rfl | rfl | rfl | rfl | rfl
  · exact ⟨Node.str1, Relation.ReflTransGen.refl,
      main_extra_mismatch _ k m _ _ _ rfl rfl (by decide) rfl⟩
  · exact ⟨Node.str2, path_str1_str2 (main_extra Node.str2b k m) rfl rfl rfl rfl,
      main_extra_mismatch _ k m _ _ _ rfl rfl (by decide) rfl⟩
  · exact ⟨Node.str3,
      (path_str1_str2 (main_extra Node.str3b k m) rfl rfl rfl rfl).trans (path_str2_str3 (main_extra Node.str3b k m) rfl rfl rfl rfl),
      main_extra_mismatch _ k m _ _ _ rfl rfl (by decide) rfl⟩
  · exact ⟨Node.str4,
      ((path_str1_str2 (main_extra Node.str4b k m) rfl rfl rfl rfl).trans (path_str2_str6 (main_extra Node.str4b k m) rfl rfl rfl rfl)).trans
        (path_str6_str4 (main_extra Node.str4b k m) rfl rfl rfl rfl),
      main_extra_mismatch _ k m _ _ _ rfl rfl (by decide) rfl⟩
  · exact ⟨Node.str5,
      (((path_str1_str2 (main_extra Node.str5b k m) rfl rfl rfl rfl).trans
        (path_str2_str6 (main_extra Node.str5b k m) rfl rfl rfl rfl)).trans
        (path_str6_str4 (main_extra Node.str5b k m) rfl rfl rfl rfl)).trans (path_str4_str5 (main_extra Node.str5b k m) rfl rfl rfl rfl),
      main_extra_mismatch _ k m _ _ _ rfl rfl (by decide) rfl⟩
  · exact ⟨Node.str6,
      (path_str1_str2 (main_extra Node.str6b k m) rfl rfl rfl rfl).trans (path_str2_str6 (main_extra Node.str6b k m) rfl rfl rfl rfl),
      main_extra_mismatch _ k m _ _ _ rfl rfl (by decide) rfl⟩

/-! ### Two structs over a pointer cycle -/

theorem name_cycle_pointers (f : Nat) (v : List (pair NameNode)) :
    is_compatible_r name_cycle f NameNode.p NameNode.q v = none ∧
    is_compatible_r name_cycle f NameNode.q NameNode.p v = none := by
  induction f with
  | zero => exact ⟨rfl, rfl⟩
  | succ f ih =>
    constructor
    · rw [is_compatible_r_pointer name_cycle f v (by decide)
        (show name_cycle NameNode.p = type.POINTER NameNode.q from rfl)
        (show name_cycle NameNode.q = type.POINTER NameNode.p from rfl)]
      exact ih.2
    · rw [is_compatible_r_pointer name_cycle f v (by decide)
        (show name_cycle NameNode.q = type.POINTER NameNode.p from rfl)
        (show name_cycle NameNode.p = type.POINTER NameNode.q from rfl)]
      exact ih.1

theorem name_cycle_structs (f : Nat) :
    is_compatible_r name_cycle f NameNode.a NameNode.b [] = none := by
  cases f with
  | zero => rfl
  | succ f =>
    rw [is_compatible_r_struct name_cycle f [] (by decide)
      (show name_cycle NameNode.a = type.STRUCT _ from rfl)
      (show name_cycle NameNode.b = type.STRUCT _ from rfl),
      is_compat_struct_loop _ _ _ _ _ _ (by simp [seen]) (by decide)]
    simp [members_loop_cons, (name_cycle_pointers f _).1]

theorem swap_graph_structOnCycles : StructOnCycles swap_graph := by
  apply structOnCycles_of_rank swap_graph (fun _ => 0)
  intro x y h
  cases x <;> cases h

end Basic

/-! ## The properties -/

section Properties

variable {α : Type} [DecidableEq α]

/-- C1 (soundness): if `is_compatible(a, b)` returns true, then `a` and `b`
are structurally equivalent: some relation contains `(a, b)` and each of its
pairs has nodes of the same kind, related pointees when both are pointers, and
equal tags, equal member counts, equal member names and related member types
at every index when both are structs. This holds in every graph; finiteness
and the condition on cycles are not used. -/
theorem is_compatible_sound (g : α → type α) (fuel : Nat) (a b : α)
    (h : is_compatible g fuel a b = some true) : StructEquiv g a b :=
  structEquiv_of_upTo g (upTo_of_true g fuel a b [] h)

/-- Soundness at `str1c` against `str1d` of `main`. -/
theorem is_compatible_sound_witness :
    is_compatible main_graph 5 Node.str1c Node.str1d = some true ∧
    StructEquiv main_graph Node.str1c Node.str1d :=
  ⟨by decide, is_compatible_sound main_graph 5 Node.str1c Node.str1d (by decide)⟩

/-- C2 (completeness): in a finite graph in which every reference cycle passes
through a struct node, if `a` and `b` are structurally equivalent then
`is_compatible(a, b)` returns true; and `is_compatible(a, b)` returns false
only if some pair reached from `(a, b)` by lock-step descent shows a mismatch
of kind, tag, member count or member name. -/
theorem is_compatible_complete [Finite α] (g : α → type α)
    (hg : StructOnCycles g) (a b : α) :
    (StructEquiv g a b →
      ∃ fuel, ∀ f, fuel ≤ f → is_compatible g f a b = some true) ∧
    (∀ f, is_compatible g f a b = some false →
      ∃ x y, Relation.ReflTransGen (Descent g) (a, b) (x, y) ∧ Mismatch g x y) := by
  constructor
  · rintro ⟨R, hab, hR⟩
    exact true_of_closed g hg R hR a b hab []
  · intro f h
    exact mismatch_of_false g f a b [] h

/-- Completeness at `str1c` against `str1d` of `main`, which `main_fold` shows
structurally equivalent. -/
theorem is_compatible_complete_witness :
    StructOnCycles main_graph ∧ StructEquiv main_graph Node.str1c Node.str1d ∧
    ∃ fuel, ∀ f, fuel ≤ f →
      is_compatible main_graph f Node.str1c Node.str1d = some true :=
  ⟨main_graph_structOnCycles,
    structEquiv_of_clone main_graph main_fold Node.str1c (main_fold_cloneFrom _),
    (is_compatible_complete main_graph main_graph_structOnCycles
      Node.str1c Node.str1d).1
      (structEquiv_of_clone main_graph main_fold Node.str1c (main_fold_cloneFrom _))⟩

/-- C3, as the claim states it, fails: on two pointer nodes that point at each
other `is_compatible` returns for no amount of fuel. -/
theorem ptr_cycle_diverges :
    ¬ ∃ fuel r, is_compatible ptr_cycle fuel PtrNode.p PtrNode.q = some r := by
  rintro ⟨fuel, r, h⟩
  rw [is_compatible, (ptr_cycle_none fuel []).1] at h
  cases h

/-- C3 (totality, amended): in a finite graph in which every reference cycle
passes through a struct node, `is_compatible(a, b)` terminates with a definite
true or false for every two nodes `a`, `b`. -/
theorem is_compatible_total [Finite α] (g : α → type α) (hg : StructOnCycles g)
    (a b : α) : ∃ fuel r, ∀ f, fuel ≤ f → is_compatible g f a b = some r :=
  returns_of_structOnCycles g hg a b []

/-- Totality at `str1` against `str4` of `main`. -/
theorem is_compatible_total_witness :
    StructOnCycles main_graph ∧
    ∃ fuel r, ∀ f, fuel ≤ f →
      is_compatible main_graph f Node.str1 Node.str4 = some r :=
  ⟨main_graph_structOnCycles,
    is_compatible_total main_graph main_graph_structOnCycles Node.str1 Node.str4⟩

/-- C4 (termination on struct cycles): in a finite graph in which every
reference cycle passes through a struct node, `is_compatible_r(a, b, v)`
terminates for all nodes `a`, `b` and every trail `v`. -/
theorem is_compatible_r_terminates [Finite α] (g : α → type α)
    (hg : StructOnCycles g) (a b : α) (v : List (pair α)) :
    ∃ fuel r, ∀ f, fuel ≤ f → is_compatible_r g f a b v = some r :=
  returns_of_structOnCycles g hg a b v

/-- Termination at `str1c` against `str2c` of `main` under a trail holding the
pair of `str3` and `str6`. -/
theorem is_compatible_r_terminates_witness :
    StructOnCycles main_graph ∧
    ∃ fuel r, ∀ f, fuel ≤ f →
      is_compatible_r main_graph f Node.str1c Node.str2c
        [⟨Node.str3, Node.str6⟩] = some r :=
  ⟨main_graph_structOnCycles,
    is_compatible_r_terminates main_graph main_graph_structOnCycles
      Node.str1c Node.str2c [⟨Node.str3, Node.str6⟩]⟩

/-- C5 (symmetry): `is_compatible(a, b) = is_compatible(b, a)` for all nodes
`a`, `b`, at every amount of fuel: both calls return the same verdict or
both run out of fuel. -/
theorem is_compatible_symm (g : α → type α) (fuel : Nat) (a b : α) :
    is_compatible g fuel a b = is_compatible g fuel b a :=
  is_compatible_r_swap g fuel a b [] [] (fun _ _ => rfl)

/-- C6 (reflexivity): `is_compatible_r(a, a, v)` returns true for every node
`a` and every trail `v`, and so does `is_compatible(a, a)`; one call suffices,
whatever the graph. -/
theorem is_compatible_refl (g : α → type α) (fuel : Nat) (a : α)
    (v : List (pair α)) :
    is_compatible_r g (fuel + 1) a a v = some true ∧
    is_compatible g (fuel + 1) a a = some true ∧
    is_compatible_r g 1 a a v = some true :=
  ⟨is_compatible_r_same g fuel a v, is_compatible_r_same g fuel a [],
    is_compatible_r_same g 0 a v⟩

/-- C7 (tag and arity pre-check): for two distinct struct nodes whose tags
differ or whose member counts differ, `is_compatible(a, b)` returns false,
whatever their members are. -/
theorem is_compatible_precheck (g : α → type α) (fuel : Nat) (a b : α)
    (sa sb : struct_info α) (hab : a ≠ b) (ha : g a = type.STRUCT sa)
    (hb : g b = type.STRUCT sb) (h : sa.tag ≠ sb.tag ∨ sa.N ≠ sb.N) :
    is_compatible g (fuel + 1) a b = some false := by
  rw [is_compatible, is_compatible_r_struct g fuel [] hab ha hb]
  exact is_compat_struct_precheck _ _ _ _ _ _ (by simp [seen]) h.symm

/-- The pre-check at `str1` (2 members) against `str2` (3 members) of `main`. -/
theorem is_compatible_precheck_witness :
    is_compatible main_graph 1 Node.str1 Node.str2 = some false :=
  is_compatible_precheck main_graph 0 Node.str1 Node.str2
    ⟨"tag1", [⟨"a", Node.int_type⟩, ⟨"b", Node.str1_b⟩]⟩
    ⟨"tag2", [⟨"a", Node.int_type⟩, ⟨"b", Node.str2_b⟩, ⟨"c", Node.str2_c⟩]⟩
    (by decide) rfl rfl (Or.inr (by decide))

/-- C8, as the claim states it, fails: the halves `str1`, `str2`, `str3` and
`str4`, `str5`, `str6` of the first cluster of `main` have the same shape,
member names, member order and pointer topology and different tags, and
`is_compatible(str1, str4)` returns false. -/
theorem halves_not_compatible :
    ShapeFrom main_graph main_halves Node.str1 ∧
    main_halves Node.str1 = Node.str4 ∧
    is_compatible main_graph 1 Node.str1 Node.str4 = some false ∧
    ¬ ∃ fuel, is_compatible main_graph fuel Node.str1 Node.str4 = some true := by
  refine ⟨main_halves_shapeFrom _, rfl, by decide, ?_⟩
  rintro ⟨fuel, h⟩
  cases fuel with
  | zero => simp [is_compatible, is_compatible_r_zero] at h
  | succ k =>
    have h1 : is_compatible main_graph 1 Node.str1 Node.str4 = some false := by decide
    have h2 := is_compatible_r_mono main_graph 1 (k + 1) _ _ [] false (by omega) h1
    rw [is_compatible, h2] at h
    cases h

/-- C8 (amended): in a finite graph in which every reference cycle passes
through a struct node, let `φ` send what is reachable from `n` to a copy of
the same shape, member names, member order and reference topology. If
corresponding structs carry equal tags, `is_compatible(n, φ n)` returns true;
if `n` and `φ n` are distinct structs with different tags, it returns false.
The verdict does not depend on the identity of the nodes; it does depend on
the tags. -/
theorem is_compatible_same_shape [Finite α] (g : α → type α)
    (hg : StructOnCycles g) (φ : α → α) (n : α) (hφ : ShapeFrom g φ n) :
    ((∀ x s t, Relation.ReflTransGen (RefEdge g) n x →
        g x = type.STRUCT s → g (φ x) = type.STRUCT t → s.tag = t.tag) →
      ∃ fuel, ∀ f, fuel ≤ f → is_compatible g f n (φ n) = some true) ∧
    (∀ s t, g n = type.STRUCT s → g (φ n) = type.STRUCT t → n ≠ φ n →
      s.tag ≠ t.tag → ∀ f, is_compatible g (f + 1) n (φ n) = some false) := by
  constructor
  · intro htag
    obtain ⟨R, hab, hR⟩ :=
      structEquiv_of_clone g φ n (cloneFrom_of_shapeFrom g φ n hφ htag)
    exact true_of_closed g hg R hR n (φ n) hab []
  · intro s t hs ht hne htag f
    rw [is_compatible, is_compatible_r_struct g f [] hne hs ht]
    exact is_compat_struct_precheck _ _ _ _ _ _ (by simp [seen]) (Or.inr htag)

/-- The two halves of the first cluster of `main`, whose tags differ, and the
two clusters of `main`, whose tags agree. -/
theorem is_compatible_same_shape_witness :
    (∀ f, is_compatible main_graph (f + 1) Node.str1 Node.str4 = some false) ∧
    ∃ fuel, ∀ f, fuel ≤ f →
      is_compatible main_graph f Node.str1 Node.str1b = some true :=
  ⟨(is_compatible_same_shape main_graph main_graph_structOnCycles main_halves
      Node.str1 (main_halves_shapeFrom _)).2 _ _ rfl rfl (by decide) (by decide),
    (is_compatible_same_shape main_graph main_graph_structOnCycles main_clone
      Node.str1 (fun x hx => by rw [main_clone_cloneFrom Node.str1 x hx])).1
      (fun x s t hx hs ht => by
        have h := main_clone_cloneFrom Node.str1 x hx
        rw [hs, ht] at h
        cases h
        rfl)⟩

/-- C9 (clone equivalence): in a finite graph in which every reference cycle
passes through a struct node, a node `n` and the corresponding node `φ n` of a
clone of what is reachable from `n` (same tags, member names, member order and
reference topology) are found compatible: `is_compatible(n, φ n)` returns
true. -/
theorem is_compatible_clone [Finite α] (g : α → type α) (hg : StructOnCycles g)
    (φ : α → α) (n : α) (hφ : CloneFrom g φ n) :
    ∃ fuel, ∀ f, fuel ≤ f → is_compatible g f n (φ n) = some true := by
  obtain ⟨R, hab, hR⟩ := structEquiv_of_clone g φ n hφ
  exact true_of_closed g hg R hR n (φ n) hab []

/-- Clone equivalence at `str1` against `str1b` of `main`. -/
theorem is_compatible_clone_witness :
    StructOnCycles main_graph ∧ CloneFrom main_graph main_clone Node.str1 ∧
    Node.str1 ≠ Node.str1b ∧
    ∃ fuel, ∀ f, fuel ≤ f →
      is_compatible main_graph f Node.str1 Node.str1b = some true :=
  ⟨main_graph_structOnCycles, main_clone_cloneFrom _, by decide,
    is_compatible_clone main_graph main_graph_structOnCycles main_clone Node.str1
      (main_clone_cloneFrom _)⟩

/-- C10 (cycle collapsing, scenario B of `main`): the three comparisons
`is_compatible(str1c, str2c)`, `is_compatible(str1c, str1d)` and
`is_compatible(str2c, str1d)` return true, at every amount of fuel from 5 on. -/
theorem scenario_B (f : Nat) :
    is_compatible main_graph (f + 5) Node.str1c Node.str2c = some true ∧
    is_compatible main_graph (f + 5) Node.str1c Node.str1d = some true ∧
    is_compatible main_graph (f + 5) Node.str2c Node.str1d = some true :=
  ⟨is_compatible_r_mono main_graph 5 (f + 5) _ _ [] true (by omega) (by decide),
    is_compatible_r_mono main_graph 5 (f + 5) _ _ [] true (by omega) (by decide),
    is_compatible_r_mono main_graph 5 (f + 5) _ _ [] true (by omega) (by decide)⟩

/-- C11 (an extra member breaks equivalence): in the memory of `main`, when
one struct of the second cluster `str1b`..`str6b` is given one additional
member, of any name and type and at any position, `is_compatible(str1, str1b)`
returns false. -/
theorem extra_member_breaks (s : Node) (hs : s ∈ clone_structs) (k : Nat)
    (m : struct_member Node) :
    ∃ fuel, ∀ f, fuel ≤ f →
      is_compatible (main_extra s k m) f Node.str1 Node.str1b = some false := by
  obtain ⟨x, hreach, hm⟩ := main_extra_reach s hs k m
  exact false_of_mismatch _ (main_extra_structOnCycles s k m) _ _ x s hreach hm

/-- An additional member `x` of type `int_type` at position 1 of `str5b`. -/
theorem extra_member_breaks_witness :
    Node.str5b ∈ clone_structs ∧
    ∃ fuel, ∀ f, fuel ≤ f →
      is_compatible (main_extra Node.str5b 1 ⟨"x", Node.int_type⟩) f
        Node.str1 Node.str1b = some false :=
  ⟨by decide, extra_member_breaks Node.str5b (by decide) 1 ⟨"x", Node.int_type⟩⟩

/-- C12, as the claim states it, fails: the structs `a` and `b` of
`name_cycle` are distinct, have the same tag and member count and different
names at index 1, and `is_compatible(a, b)` returns for no amount of fuel: the
comparison of the members at index 0 runs around a cycle of pointers. -/
theorem name_cycle_diverges :
    NameNode.a ≠ NameNode.b ∧
    (∃ sa sb, name_cycle NameNode.a = type.STRUCT sa ∧
      name_cycle NameNode.b = type.STRUCT sb ∧ sa.tag = sb.tag ∧ sa.N = sb.N ∧
      (sa.members.map struct_member.name).get? 1 ≠
        (sb.members.map struct_member.name).get? 1) ∧
    ¬ ∃ fuel r, is_compatible name_cycle fuel NameNode.a NameNode.b = some r := by
  refine ⟨by decide, ⟨_, _, rfl, rfl, rfl, rfl, by decide⟩, ?_⟩
  rintro ⟨fuel, r, h⟩
  rw [is_compatible, name_cycle_structs fuel] at h
  cases h

/-- C12 (positional member matching, amended): in a finite graph in which
every reference cycle passes through a struct node, for two distinct struct
nodes with the same tag and the same member count whose member names differ at
some index, `is_compatible(a, b)` returns false. -/
theorem positional_matching [Finite α] (g : α → type α) (hg : StructOnCycles g)
    (a b : α) (sa sb : struct_info α) (_hab : a ≠ b) (ha : g a = type.STRUCT sa)
    (hb : g b = type.STRUCT sb) (_htag : sa.tag = sb.tag) (hN : sa.N = sb.N)
    (i : Nat) (hi : i < sa.members.length) (hj : i < sb.members.length)
    (hname : (sa.members.get ⟨i, hi⟩).name ≠ (sb.members.get ⟨i, hj⟩).name) :
    ∃ fuel, ∀ f, fuel ≤ f → is_compatible g f a b = some false := by
  apply false_of_mismatch g hg a b a b Relation.ReflTransGen.refl
  refine Or.inr ⟨sa, sb, ha, hb, Or.inr (Or.inr ?_)⟩
  by_contra hall
  have hzip : ∀ m ∈ sa.members.zip sb.members, m.1.name = m.2.name := by
    intro m hm
    by_contra hne
    exact hall ⟨m, hm, hne⟩
  exact hname ((get_iff_zip (fun m1 m2 : struct_member α => m1.name = m2.name)
    _ _ hN).2 hzip i hi hj)

/-- The structs `a` and `b` of `swap_graph`: the names `x`, `y` against `y`,
`x`. -/
theorem positional_matching_witness :
    StructOnCycles swap_graph ∧
    ∃ fuel, ∀ f, fuel ≤ f →
      is_compatible swap_graph f SwapNode.a SwapNode.b = some false :=
  ⟨swap_graph_structOnCycles,
    positional_matching swap_graph swap_graph_structOnCycles SwapNode.a SwapNode.b
      ⟨"t", [⟨"x", SwapNode.i⟩, ⟨"y", SwapNode.i⟩]⟩
      ⟨"t", [⟨"y", SwapNode.i⟩, ⟨"x", SwapNode.i⟩]⟩
      (by decide) rfl rfl rfl rfl 0 (by decide) (by decide) (by decide)⟩

/-- C13 (kind mismatch): for two nodes of different kinds and every trail `v`,
`is_compatible_r(a, b, v)` returns false, and so does `is_compatible(a, b)`;
one call suffices. -/
theorem kind_mismatch (g : α → type α) (fuel : Nat) (a b : α) (v : List (pair α))
    (h : (g a).kind ≠ (g b).kind) :
    is_compatible_r g (fuel + 1) a b v = some false ∧
    is_compatible g (fuel + 1) a b = some false ∧
    is_compatible_r g 1 a b v = some false := by
  have hab : a ≠ b := by
    rintro rfl
    exact h rfl
  exact ⟨is_compatible_r_kind g fuel v hab h, is_compatible_r_kind g fuel [] hab h,
    is_compatible_r_kind g 0 v hab h⟩

/-- A primitive against a pointer, a primitive against a struct and a pointer
against a struct in `main`. -/
theorem kind_mismatch_witness :
    is_compatible main_graph 1 Node.int_type Node.str1_b = some false ∧
    is_compatible main_graph 1 Node.int_type Node.str1 = some false ∧
    is_compatible main_graph 1 Node.str1_b Node.str1 = some false :=
  ⟨(kind_mismatch main_graph 0 Node.int_type Node.str1_b [] (by decide)).2.1,
    (kind_mismatch main_graph 0 Node.int_type Node.str1 [] (by decide)).2.1,
    (kind_mismatch main_graph 0 Node.str1_b Node.str1 [] (by decide)).2.1⟩

/-- C14 (trail invariant): in every call reached from `is_compatible(a, b)`
by the calls of the engine, the trail holds only pairs of two distinct struct
nodes and no pair twice in either orientation, and its length is at most the
number of unordered pairs of distinct struct nodes of the graph. The calls are
those of the body of `is_compatible_r`, which the last part ties to
`is_compatible_r`. -/
theorem trail_invariant [Fintype α] (g : α → type α) (a b x y : α)
    (v : List (pair α))
    (h : Relation.ReflTransGen (EngineCalls g) (a, b, []) (x, y, v)) :
    (∀ p ∈ v, p.a ≠ p.b ∧ (g p.a).kind = kind.STRUCT ∧ (g p.b).kind = kind.STRUCT) ∧
    v.Pairwise (fun p q => ¬ SamePair p q) ∧
    v.length ≤ (struct_nodes g).card.choose 2 ∧
    (∀ fuel c d w, is_compatible_r g (fuel + 1) c d w =
      is_compatible_r_step g (is_compatible_r g fuel) c d w) := by
  have hok : TrailOK g v := trailOK_reachable g h (trailOK_nil g)
  exact ⟨hok.1, hok.2, trailOK_length_le g v hok, fun _ _ _ _ => rfl⟩

/-- The call on the members `b` of `str1` and `str1b` of `main`, made with the
trail that holds the pair of `str1` and `str1b`. -/
theorem trail_invariant_witness :
    Relation.ReflTransGen (EngineCalls main_graph) (Node.str1, Node.str1b, [])
      (Node.str1_b, Node.str1b_b, [⟨Node.str1, Node.str1b⟩]) ∧
    [(⟨Node.str1, Node.str1b⟩ : pair Node)].length ≤
      (struct_nodes main_graph).card.choose 2 :=
  have hcall : Relation.ReflTransGen (EngineCalls main_graph)
      (Node.str1, Node.str1b, [])
      (Node.str1_b, Node.str1b_b, [⟨Node.str1, Node.str1b⟩]) :=
    Relation.ReflTransGen.single (calls_engineCalls main_graph
      (@Calls.member Node _ main_graph Node.str1 Node.str1b
        ⟨"tag1", [⟨"a", Node.int_type⟩, ⟨"b", Node.str1_b⟩]⟩
        ⟨"tag1", [⟨"a", Node.int_type⟩, ⟨"b", Node.str1b_b⟩]⟩ []
        [(⟨"a", Node.int_type⟩, ⟨"a", Node.int_type⟩)] []
        (⟨"b", Node.str1_b⟩, ⟨"b", Node.str1b_b⟩)
        (by decide) rfl rfl rfl rfl rfl rfl
        (by
          intro m2 hm2
          rw [List.mem_singleton] at hm2
          subst hm2
          exact ⟨rfl, 1, rfl⟩)
        rfl))
  ⟨hcall, (trail_invariant main_graph _ _ _ _ _ hcall).2.2.1⟩

/-- C15 (cycle check first): for two distinct struct nodes `a`, `b` and every
trail `v` that holds the pair `(a, b)` or the pair `(b, a)`,
`is_compatible_r(a, b, v)` returns true, whatever the tags, member counts,
member names and member types of the two structs; one call suffices. -/
theorem cycle_check_first (g : α → type α) (fuel : Nat) (a b : α)
    (sa sb : struct_info α) (v : List (pair α)) (hab : a ≠ b)
    (ha : g a = type.STRUCT sa) (hb : g b = type.STRUCT sb)
    (hv : (⟨a, b⟩ : pair α) ∈ v ∨ (⟨b, a⟩ : pair α) ∈ v) :
    is_compatible_r g (fuel + 1) a b v = some true ∧
    is_compatible_r g 1 a b v = some true := by
  have hs : seen a b v = true := by
    rw [seen_iff]
    rcases hv with hv | hv
    · exact ⟨_, hv, Or.inl ⟨rfl, rfl⟩⟩
    · exact ⟨_, hv, Or.inr ⟨rfl, rfl⟩⟩
  constructor
  · rw [is_compatible_r_struct g fuel v hab ha hb]
    exact is_compat_struct_seen _ _ _ _ _ _ hs
  · rw [is_compatible_r_struct g 0 v hab ha hb]
    exact is_compat_struct_seen _ _ _ _ _ _ hs

/-- The structs `str1` and `str2` of `main`, of different tags and member
counts, under a trail that holds the pair `(str2, str1)`. -/
theorem cycle_check_first_witness :
    is_compatible_r main_graph 1 Node.str1 Node.str2 [⟨Node.str2, Node.str1⟩] =
      some true ∧
    is_compatible_r main_graph 1 Node.str1 Node.str2 [] = some false :=
  ⟨(cycle_check_first main_graph 0 Node.str1 Node.str2
      ⟨"tag1", [⟨"a", Node.int_type⟩, ⟨"b", Node.str1_b⟩]⟩
      ⟨"tag2", [⟨"a", Node.int_type⟩, ⟨"b", Node.str2_b⟩, ⟨"c", Node.str2_c⟩]⟩
      [⟨Node.str2, Node.str1⟩] (by decide) rfl rfl (Or.inr (by decide))).2,
    by decide⟩

/-- C16 (pointer congruence): for two pointer nodes `p`, `q` and every trail
`v`, `is_compatible_r(p, q, v)` is `is_compatible_r(pointee(p), pointee(q), v)`
with the same trail: when `p` and `q` are distinct the call is that call, and
in every case the two return the same verdict or both do not return; the same
holds for `is_compatible`. -/
theorem pointer_congruence (g : α → type α) (p q pp pq : α) (v : List (pair α))
    (hp : g p = type.POINTER pp) (hq : g q = type.POINTER pq) :
    (p ≠ q → ∀ f, is_compatible_r g (f + 1) p q v = is_compatible_r g f pp pq v) ∧
    (∀ r, (∃ f, is_compatible_r g f p q v = some r) ↔
      ∃ f, is_compatible_r g f pp pq v = some r) ∧
    (∀ r, (∃ f, is_compatible g f p q = some r) ↔
      ∃ f, is_compatible g f pp pq = some r) := by
  have key : ∀ w : List (pair α), ∀ r, (∃ f, is_compatible_r g f p q w = some r) ↔
      ∃ f, is_compatible_r g f pp pq w = some r := by
    intro w r
    by_cases hpq : p = q
    · subst hpq
      have hpp : pp = pq := by
        rw [hp] at hq
        cases hq
        rfl
      subst hpp
      constructor
      · rintro ⟨f, hf⟩
        cases f with
        | zero => simp [is_compatible_r_zero] at hf
        | succ f =>
          rw [is_compatible_r_same] at hf
          exact ⟨1, by rw [is_compatible_r_same]; exact hf⟩
      · rintro ⟨f, hf⟩
        cases f with
        | zero => simp [is_compatible_r_zero] at hf
        | succ f =>
          rw [is_compatible_r_same] at hf
          exact ⟨1, by rw [is_compatible_r_same]; exact hf⟩
    · constructor
      · rintro ⟨f, hf⟩
        cases f with
        | zero => simp [is_compatible_r_zero] at hf
        | succ f =>
          rw [is_compatible_r_pointer g f w hpq hp hq] at hf
          exact ⟨f, hf⟩
      · rintro ⟨f, hf⟩
        exact ⟨f + 1, by rw [is_compatible_r_pointer g f w hpq hp hq]; exact hf⟩
  exact ⟨fun hpq f => is_compatible_r_pointer g f v hpq hp hq, key v, key []⟩

/-- The pointer nodes stored in the members `b` of `str1` and `str2` of
`main`, whose pointees `str2` and `str6` have different tags. -/
theorem pointer_congruence_witness :
    (∀ f, is_compatible_r main_graph (f + 1) Node.str1_b Node.str2_b [] =
      is_compatible_r main_graph f Node.str2 Node.str6 []) ∧
    ((∃ f, is_compatible main_graph f Node.str1_b Node.str2_b = some false) ↔
      ∃ f, is_compatible main_graph f Node.str2 Node.str6 = some false) :=
  ⟨(pointer_congruence main_graph Node.str1_b Node.str2_b Node.str2 Node.str6 []
      rfl rfl).1 (by decide),
    (pointer_congruence main_graph Node.str1_b Node.str2_b Node.str2 Node.str6 []
      rfl rfl).2.2 false⟩

/-- C17 (transitivity): in a finite graph in which every reference cycle
passes through a struct node, if `is_compatible(a, b)` and
`is_compatible(b, c)` return true then `is_compatible(a, c)` returns true; and
returning true is an equivalence relation on the nodes. -/
theorem is_compatible_trans [Finite α] (g : α → type α) (hg : StructOnCycles g) :
    (∀ a b c f1 f2, is_compatible g f1 a b = some true →
      is_compatible g f2 b c = some true →
      ∃ fuel, ∀ f, fuel ≤ f → is_compatible g f a c = some true) ∧
    Equivalence (fun a b => ∃ f, is_compatible g f a b = some true) := by
  have htrans : ∀ a b c f1 f2, is_compatible g f1 a b = some true →
      is_compatible g f2 b c = some true →
      ∃ fuel, ∀ f, fuel ≤ f → is_compatible g f a c = some true := by
    intro a b c f1 f2 h1 h2
    obtain ⟨R, hac, hR⟩ := structEquiv_trans g
      (structEquiv_of_upTo g (upTo_of_true g f1 a b [] h1))
      (structEquiv_of_upTo g (upTo_of_true g f2 b c [] h2))
    exact true_of_closed g hg R hR a c hac []
  refine ⟨htrans, ⟨fun a => ⟨1, is_compatible_r_same g 0 a []⟩, ?_, ?_⟩⟩
  · rintro a b ⟨f, hf⟩
    exact ⟨f, by
      rw [is_compatible, is_compatible_r_swap g f b a [] [] (fun _ _ => rfl)]
      exact hf⟩
  · rintro a b c ⟨f1, h1⟩ ⟨f2, h2⟩
    obtain ⟨fuel, hfuel⟩ := htrans a b c f1 f2 h1 h2
    exact ⟨fuel, hfuel fuel (le_refl _)⟩

/-- From `str1c` to `str2c` and from `str2c` to `str1d` in `main`. -/
theorem is_compatible_trans_witness :
    is_compatible main_graph 5 Node.str1c Node.str2c = some true ∧
    is_compatible main_graph 5 Node.str2c Node.str1d = some true ∧
    ∃ fuel, ∀ f, fuel ≤ f →
      is_compatible main_graph f Node.str1c Node.str1d = some true :=
  ⟨by decide, by decide,
    (is_compatible_trans main_graph main_graph_structOnCycles).1
      Node.str1c Node.str2c Node.str1d 5 5 (by decide) (by decide)⟩

/-- C18 (true assumptions do not change the verdict): in a finite graph in
which every reference cycle passes through a struct node, under a trail all of
whose pairs `(x, y)` have `is_compatible(x, y)` return true,
`is_compatible_r(a, b, v)` returns what `is_compatible(a, b)` returns. -/
theorem true_assumptions [Finite α] (g : α → type α) (hg : StructOnCycles g)
    (a b : α) (v : List (pair α))
    (hv : ∀ p ∈ v, ∃ f, is_compatible g f p.a p.b = some true) :
    ∃ fuel r, ∀ f, fuel ≤ f →
      is_compatible_r g f a b v = some r ∧ is_compatible g f a b = some r := by
  obtain ⟨f1, r1, h1⟩ := returns_of_structOnCycles g hg a b v
  obtain ⟨f2, r2, h2⟩ := returns_of_structOnCycles g hg a b []
  have hv2 : ∀ p ∈ v, StructEquiv g p.a p.b := by
    intro p hp
    obtain ⟨f, hf⟩ := hv p hp
    exact structEquiv_of_upTo g (upTo_of_true g f p.a p.b [] hf)
  have hr : r1 = r2 := by
    cases r1 <;> cases r2
    · rfl
    · obtain ⟨R, hab, hR⟩ :=
        structEquiv_of_upTo g (upTo_of_true g f2 a b [] (h2 f2 (le_refl _)))
      exact absurd (h1 f1 (le_refl _)) (not_false_of_closed g R hR f1 a b v hab)
    · obtain ⟨R, hab, hR⟩ := structEquiv_of_upTo_trail g v hv2
        (upTo_of_true g f1 a b v (h1 f1 (le_refl _)))
      exact absurd (h2 f2 (le_refl _)) (not_false_of_closed g R hR f2 a b [] hab)
    · rfl
  subst hr
  exact ⟨max f1 f2, r1, fun f hf =>
    ⟨h1 f (le_trans (le_max_left _ _) hf), h2 f (le_trans (le_max_right _ _) hf)⟩⟩

/-- The call on `str1c` and `str1d` of `main` under a trail that holds the
pair of `str1c` and `str2c`. -/
theorem true_assumptions_witness :
    is_compatible main_graph 5 Node.str1c Node.str2c = some true ∧
    ∃ fuel r, ∀ f, fuel ≤ f →
      is_compatible_r main_graph f Node.str1c Node.str1d
        [⟨Node.str1c, Node.str2c⟩] = some r ∧
      is_compatible main_graph f Node.str1c Node.str1d = some r :=
  ⟨by decide,
    true_assumptions main_graph main_graph_structOnCycles Node.str1c Node.str1d
      [⟨Node.str1c, Node.str2c⟩]
      (by
        intro p hp
        rw [List.mem_singleton] at hp
        subst hp
        exact ⟨5, by decide⟩)⟩

/-- C19 (trail monotonicity): when every pair of the trail `v` occurs in the
trail `w`, in either orientation, and `is_compatible_r(a, b, v)` returns true,
then `is_compatible_r(a, b, w)` returns true, with the same fuel and in every
graph. More assumptions can turn false into true: in `main`, `str1` against
`str2` is false under the empty trail and true under the trail holding their
pair. -/
theorem trail_monotone (g : α → type α) (fuel : Nat) (a b : α)
    (v w : List (pair α)) (hvw : ∀ p ∈ v, ∃ q ∈ w, SamePair p q)
    (h : is_compatible_r g fuel a b v = some true) :
    is_compatible_r g fuel a b w = some true ∧
    (is_compatible_r main_graph 1 Node.str1 Node.str2 [] = some false ∧
      is_compatible_r main_graph 1 Node.str1 Node.str2 [⟨Node.str1, Node.str2⟩] =
        some true) := by
  refine ⟨true_of_larger_trail g fuel a b v w ?_ h, by decide, by decide⟩
  intro x y hxy
  obtain ⟨p, hp, hpair⟩ := (seen_iff x y v).1 hxy
  obtain ⟨q, hq, hsame⟩ := hvw p hp
  refine (seen_iff x y w).2 ⟨q, hq, ?_⟩
  rcases hpair with ⟨rfl, rfl⟩ | ⟨rfl, rfl⟩ <;> rcases hsame with ⟨h1, h2⟩ | ⟨h1, h2⟩
  · exact Or.inl ⟨h1, h2⟩
  · exact Or.inr ⟨h1, h2⟩
  · exact Or.inr ⟨h2, h1⟩
  · exact Or.inl ⟨h2, h1⟩

/-- The call on `str1c` and `str2c` of `main`: true under the empty trail,
hence under a trail holding the pair of `str3` and `str6`. -/
theorem trail_monotone_witness :
    is_compatible_r main_graph 5 Node.str1c Node.str2c [] = some true ∧
    is_compatible_r main_graph 5 Node.str1c Node.str2c [⟨Node.str3, Node.str6⟩] =
      some true :=
  ⟨by decide,
    (trail_monotone main_graph 5 Node.str1c Node.str2c [] [⟨Node.str3, Node.str6⟩]
      (fun p hp => by cases hp) (by decide)).1⟩

end Properties

end StructEq

